import Mathlib

/-!
Verification development for the ComBEECraft-Server-Builder dependency
checker (`tools/check_modrinth_dependencies.py`).

The script is embedded shallowly: JSON values decoded by `json.loads` are
modelled by the inductive type `JVal` (JSON numbers are modelled as
integers; float formatting is orthogonal to every property studied here),
Python dicts are association lists with unique keys (as produced by
`json.loads`, where later duplicate keys overwrite earlier ones), absent
network effects are supplied by explicit environment records, and an
uncaught Python exception is modelled by `Option`/`Except` failure.
-/

/-- A JSON value as decoded by `json.loads`. Objects keep insertion order,
mirroring Python dicts. -/
inductive JVal where
  | null
  | bool (b : Bool)
  | num (n : Int)
  | str (s : String)
  | arr (xs : List JVal)
  | obj (fields : List (String × JVal))

/-- Python `d.get(k)` on a dict modelled as an association list:
the value of the first (only) binding of `k`, if any. -/
def getVal (fields : List (String × JVal)) (k : String) : Option JVal :=
  (fields.find? (fun p => p.1 == k)).map (fun p => p.2)

/-- Python `d.get(k)` where an absent key yields `None`, which `json`
serializes as `null`; also conflates a stored JSON `null` with `None`,
exactly as the script does. -/
def getPy (fields : List (String × JVal)) (k : String) : JVal :=
  (getVal fields k).getD JVal.null

/-- Python dict lookup for an association list with arbitrary value type. -/
def lookup {α : Type} (m : List (String × α)) (k : String) : Option α :=
  (m.find? (fun p => p.1 == k)).map (fun p => p.2)

/-- Python `d[k] = v`: update the value in place if the key is present
(keeping its position), otherwise append a new binding. -/
def setKey {α : Type} (m : List (String × α)) (k : String) (v : α) : List (String × α) :=
  if (m.find? (fun p => p.1 == k)).isSome then
    m.map (fun p => if p.1 == k then (p.1, v) else p)
  else
    m ++ [(k, v)]

/-- Python truthiness of a JSON-decoded value. -/
def pyTruthy : JVal → Bool
  | JVal.null => false
  | JVal.bool b => b
  | JVal.num n => n != 0
  | JVal.str s => s != ""
  | JVal.arr xs => !xs.isEmpty
  | JVal.obj fs => !fs.isEmpty

/-- Python truthiness of a `str | None` value: `None` and `""` are falsy. -/
def truthyS : Option String → Bool
  | none => false
  | some s => s != ""

/-- Whether a JSON value is a dict (`isinstance(v, dict)`). -/
def isObjB : JVal → Bool
  | JVal.obj _ => true
  | _ => false

/-- Python `<` on strings: lexicographic comparison of code-point
sequences (equivalent to `String.lt`, but kernel-reducible). -/
def strLt (a b : String) : Prop := a.toList < b.toList

instance : DecidableRel strLt := fun a b => by
  unfold strLt; infer_instance

/-- Python `<=` on strings, the order used by `sorted`. -/
def strLe (a b : String) : Prop := a.toList ≤ b.toList

instance : DecidableRel strLe := fun a b => by
  unfold strLe; infer_instance

mutual
/-- Python `repr` of a JSON-decoded value (the rendering used for values
nested inside containers). `repr` of a string is modelled by wrapping the
raw text in single quotes; the quote-selection and escaping corner cases of
CPython `repr` are not reproduced. -/
def pyRepr : JVal → String
  | JVal.null => "None"
  | JVal.bool true => "True"
  | JVal.bool false => "False"
  | JVal.num n => toString n
  | JVal.str s => "\x27" ++ s ++ "\x27"
  | JVal.arr xs => "[" ++ pyReprList xs ++ "]"
  | JVal.obj fs => "\x7b" ++ pyReprFields fs ++ "\x7d"

/-- Helper for `pyRepr`: comma-separated renderings of list elements. -/
def pyReprList : List JVal → String
  | [] => ""
  | [x] => pyRepr x
  | x :: y :: xs => pyRepr x ++ ", " ++ pyReprList (y :: xs)

/-- Helper for `pyRepr`: comma-separated `key: value` renderings. -/
def pyReprFields : List (String × JVal) → String
  | [] => ""
  | [p] => "\x27" ++ p.1 ++ "\x27: " ++ pyRepr p.2
  | p :: q :: fs => "\x27" ++ p.1 ++ "\x27: " ++ pyRepr p.2 ++ ", " ++ pyReprFields (q :: fs)
end

/-- Python `str` of a JSON-decoded value: a string renders as itself,
anything else as its `repr`. -/
def pyStr : JVal → String
  | JVal.str s => s
  | v => pyRepr v

/-! ## Manifest normalization (`ordered_hashes` .. `normalize_modrinth_index`) -/

/-- Common shape of `ordered_hashes`, `ordered_env` and `ordered_dependencies`:
hoist the bindings of the two given keys (in that order, when present) to the
front of the dict and keep all remaining bindings in their original order. -/
def promote2 (k1 k2 : String) (m : List (String × JVal)) : List (String × JVal) :=
  (match getVal m k1 with
   | some v => [(k1, v)]
   | none => []) ++
  (match getVal m k2 with
   | some v => [(k2, v)]
   | none => []) ++
  m.filter (fun p => p.1 != k1 && p.1 != k2)

/-- `ordered_hashes`: sha512 first, then sha1, then everything else. -/
def ordered_hashes (hashes : List (String × JVal)) : List (String × JVal) :=
  promote2 "sha512" "sha1" hashes

/-- `ordered_env`: client first, then server, then everything else. -/
def ordered_env (env : List (String × JVal)) : List (String × JVal) :=
  promote2 "client" "server" env

/-- `ordered_dependencies`: neoforge first, then minecraft, then the rest. -/
def ordered_dependencies (deps : List (String × JVal)) : List (String × JVal) :=
  promote2 "neoforge" "minecraft" deps

/-- Keys handled specially by `ordered_file_entry`. -/
def fileEntryKeys : List String := ["path", "hashes", "env", "downloads", "fileSize"]

/-- The `hashes` block of `ordered_file_entry`: emitted only when
`entry.get("hashes")` is not `None`; reordered when it is a dict. -/
def hashes_part (entry : List (String × JVal)) : List (String × JVal) :=
  match getPy entry "hashes" with
  | JVal.null => []
  | JVal.obj hs => [("hashes", JVal.obj (ordered_hashes hs))]
  | v => [("hashes", v)]

/-- The `env` block of `ordered_file_entry`, analogous to `hashes_part`. -/
def env_part (entry : List (String × JVal)) : List (String × JVal) :=
  match getPy entry "env" with
  | JVal.null => []
  | JVal.obj e => [("env", JVal.obj (ordered_env e))]
  | v => [("env", v)]

/-- The `downloads` block of `ordered_file_entry`: emitted when the key is
present (`"downloads" in entry`), keeping its value verbatim. -/
def downloads_part (entry : List (String × JVal)) : List (String × JVal) :=
  match getVal entry "downloads" with
  | some v => [("downloads", v)]
  | none => []

/-- The `fileSize` block of `ordered_file_entry`, analogous to
`downloads_part`. -/
def fileSize_part (entry : List (String × JVal)) : List (String × JVal) :=
  match getVal entry "fileSize" with
  | some v => [("fileSize", v)]
  | none => []

/-- The trailing block of `ordered_file_entry`: all bindings whose key is not
one of the five canonical file-entry keys, in original order. -/
def extras_part (entry : List (String × JVal)) : List (String × JVal) :=
  entry.filter (fun p => !(fileEntryKeys.contains p.1))

/-- `ordered_file_entry`: canonical key order for one manifest file entry.
`path` is always materialized first (as `null` when absent); `hashes` and
`env` are kept only when non-`None` and reordered when dicts; `downloads`
and `fileSize` are kept when present; unrecognized keys follow verbatim. -/
def ordered_file_entry (entry : List (String × JVal)) : List (String × JVal) :=
  ("path", getPy entry "path") ::
    (hashes_part entry ++ env_part entry ++ downloads_part entry ++
     fileSize_part entry ++ extras_part entry)

/-- The sort key `str(e.get("path", ""))` used by `normalize_modrinth_index`
on file entries. Non-dict entries make Python raise before comparing; the
catch-all branch here is unreachable behind `normalize_modrinth_index`'s
all-dicts guard. -/
def fileSortKey (e : JVal) : String :=
  match e with
  | JVal.obj fields => pyStr ((getVal fields "path").getD (JVal.str ""))
  | _ => ""

/-- Sort relation on file entries: ascending `fileSortKey`. -/
def fileLe (a b : JVal) : Prop := strLe (fileSortKey a) (fileSortKey b)

instance : DecidableRel fileLe := fun a b => by
  unfold fileLe; infer_instance

instance : IsTotal JVal fileLe :=
  ⟨fun a b => le_total (fileSortKey a).toList (fileSortKey b).toList⟩

instance : IsTrans JVal fileLe :=
  ⟨fun _ _ _ h1 h2 => le_trans (α := List Char) h1 h2⟩

instance : IsTotal String strLe := ⟨fun a b => le_total a.toList b.toList⟩

instance : IsTrans String strLe := ⟨fun _ _ _ h1 h2 => le_trans (α := List Char) h1 h2⟩

/-- Normalization of one sorted file entry: dict entries are reordered by
`ordered_file_entry`, anything else is kept as-is (unreachable in practice,
since sorting already requires dicts). -/
def normEntry : JVal → JVal
  | JVal.obj fields => JVal.obj (ordered_file_entry fields)
  | e => e

/-- The seven canonical top-level manifest keys. -/
def canonicalKeys : List String :=
  ["game", "formatVersion", "versionId", "name", "summary", "files", "dependencies"]

/-- The five scalar bindings `result[key] = index_json.get(key)` that open
the normalized manifest. -/
def normCanon (fs : List (String × JVal)) : List (String × JVal) :=
  [("game", getPy fs "game"), ("formatVersion", getPy fs "formatVersion"),
   ("versionId", getPy fs "versionId"), ("name", getPy fs "name"),
   ("summary", getPy fs "summary")]

/-- The normalized `files` value: file entries sorted by path key (Python
`sorted` is stable, as is `List.insertionSort`) and reordered, or `[]` when
`files` is not a list; `none` when the files list contains a non-dict entry
and the sort key `e.get("path", "")` raises. -/
def normFilesOut (fs : List (String × JVal)) : Option JVal :=
  match (getVal fs "files").getD (JVal.arr []) with
  | JVal.arr l =>
    if l.all isObjB then
      some (JVal.arr ((List.insertionSort fileLe l).map normEntry))
    else none
  | _ => some (JVal.arr [])

/-- The normalized `dependencies` value: reordered when a dict (an absent
key defaults to `{}`), replaced by `{}` otherwise. -/
def normDepsOut (fs : List (String × JVal)) : JVal :=
  match (getVal fs "dependencies").getD (JVal.obj []) with
  | JVal.obj d => JVal.obj (ordered_dependencies d)
  | _ => JVal.obj []

/-- The trailing top-level bindings: every key outside the canonical seven,
kept verbatim in original order. -/
def normExtras (fs : List (String × JVal)) : List (String × JVal) :=
  fs.filter (fun p => !(canonicalKeys.contains p.1))

/-- `normalize_modrinth_index`: canonical top-level key order, file entries
sorted and normalized, `dependencies` reordered, unrecognized keys appended
verbatim. Returns `none` when the script would raise: the root is not a
dict (`index_json.get` fails) or the files list contains a non-dict entry
(the sort key `e.get("path", "")` fails). -/
def normalize_modrinth_index (j : JVal) : Option JVal :=
  match j with
  | JVal.obj fs =>
    match normFilesOut fs with
    | none => none
    | some fOut =>
      some (JVal.obj (normCanon fs ++ [("files", fOut), ("dependencies", normDepsOut fs)] ++
        normExtras fs))
  | _ => none

/-! ## Reconciliation: per-edge satisfaction classification (`main`, lines 509-545) -/

/-- The `provided` flag computed for one dependency edge of one consumer.
`installed_projects` maps installed package ids to their installed version
ids; `project_slug_map` maps package ids to slugs; `runtime_keys` are the
keys of the manifest's `dependencies` object; `installed_version_ids` is the
set of all installed version ids. `dep_pid`/`dep_vid` model
`dep.get("project_id")`/`dep.get("version_id")` (ids are strings or absent;
Python truthiness makes `""` behave like absent). -/
def provided_flag (installed_projects : List (String × List String))
    (project_slug_map : List (String × String)) (runtime_keys : List String)
    (installed_version_ids : List String) (dep_pid dep_vid : Option String) : Bool :=
  if truthyS dep_pid && (lookup installed_projects (dep_pid.getD "")).isSome then
    if truthyS dep_vid &&
        !(((lookup installed_projects (dep_pid.getD "")).getD []).contains (dep_vid.getD "")) then
      false
    else
      true
  else if truthyS dep_pid &&
      (match lookup project_slug_map (dep_pid.getD "") with
       | some slug => runtime_keys.contains slug
       | none => false) then
    true
  else if truthyS dep_vid && installed_version_ids.contains (dep_vid.getD "") then
    true
  else
    false

/-- The state string assigned to one dependency edge from its `provided`
flag and its `dependency_type` (lines 536-545). -/
def dep_state (provided : Bool) (dep_type : String) : String :=
  if provided then "OK"
  else if dep_type = "required" then "MISSING"
  else if dep_type = "optional" then "OPTIONAL"
  else if dep_type = "incompatible" then "INCOMPATIBLE"
  else "UNMET"

/-- Modelled from the spec: the abstract satisfaction states the spec
assigns to edges (`OK | MISSING | OPTIONAL_UNMET | INCOMPATIBLE_PRESENT |
UNMET`). -/
inductive SatisfactionState where
  | OK
  | MISSING
  | OPTIONAL_UNMET
  | INCOMPATIBLE_PRESENT
  | UNMET
deriving DecidableEq

/-- Modelled from the spec: the spec's abstract state named by each state
string the script prints. -/
def specStateOfDisplay (s : String) : SatisfactionState :=
  if s = "OK" then SatisfactionState.OK
  else if s = "MISSING" then SatisfactionState.MISSING
  else if s = "OPTIONAL" then SatisfactionState.OPTIONAL_UNMET
  else if s = "INCOMPATIBLE" then SatisfactionState.INCOMPATIBLE_PRESENT
  else SatisfactionState.UNMET

/-! ## Manifest entry parsing (`parse_mod_files`) and the early `main` path -/

/-- One installed mod entry recognized in the manifest (`ModFile`). -/
structure ModFile where
  path : String
  project_id : String
  version_id : String
  file_index : Nat
deriving DecidableEq

instance : IsTotal ModFile (fun a b => a.file_index ≤ b.file_index) :=
  ⟨fun a b => Nat.le_total a.file_index b.file_index⟩

instance : IsTrans ModFile (fun a b => a.file_index ≤ b.file_index) :=
  ⟨fun _ _ _ h1 h2 => Nat.le_trans h1 h2⟩

/-- Strip an expected literal character sequence from the front of a
character list; `none` when it does not start with it. -/
def dropLit : List Char → List Char → Option (List Char)
  | [], cs => some cs
  | _ :: _, [] => none
  | p :: ps, c :: cs => if c = p then dropLit ps cs else none

/-- Match `([^/]+)` greedily: a nonempty run of non-slash characters,
returning the captured run and the rest (which then starts with a slash or
is empty). -/
def seg (cs : List Char) : Option (String × List Char) :=
  let run := cs.takeWhile (fun c => c ≠ '/')
  if run.isEmpty then none else some (run.asString, cs.dropWhile (fun c => c ≠ '/'))

/-- Attempt to match the regex `/data/([^/]+)/versions/([^/]+)/` anchored at
the start of the given character list. The captures are forced (no
backtracking is possible since `[^/]+` cannot cross a slash). -/
def tryAt (cs : List Char) : Option (String × String) := do
  let r1 ← dropLit "/data/".toList cs
  let (pid, r2) ← seg r1
  let r3 ← dropLit "/versions/".toList r2
  let (vid, r4) ← seg r3
  let _ ← dropLit ['/'] r4
  pure (pid, vid)

/-- `DATA_VERSION_URL_RE.search`: leftmost match of
`/data/([^/]+)/versions/([^/]+)/` anywhere in the string. -/
def searchDataVersion (s : String) : Option (String × String) :=
  go s.toList
where
  /-- Try each start position left to right. -/
  go : List Char → Option (String × String)
    | [] => none
    | cs@(_ :: rest) =>
      match tryAt cs with
      | some r => some r
      | none => go rest

/-- Python iteration over a JSON value, as used by
`for idx, entry in enumerate(files)`: lists yield their items, strings
their one-character substrings, dicts their keys; `none` models the
`TypeError` raised for non-iterable values. -/
def pyEnumerate : JVal → Option (List JVal)
  | JVal.arr xs => some xs
  | JVal.str s => some (s.toList.map (fun c => JVal.str (String.mk [c])))
  | JVal.obj fs => some (fs.map (fun p => JVal.str p.1))
  | _ => none

/-- `entry[0]` for the `downloads` value: first item of a list or first
character of a string; `.error ()` models the `TypeError`/`KeyError` raised
when indexing a dict or scalar with `0`. Only called on truthy values. -/
def pyIndex0 : JVal → Except Unit JVal
  | JVal.arr (x :: _) => Except.ok x
  | JVal.arr [] => Except.error ()
  | JVal.str s =>
    match s.toList with
    | c :: _ => Except.ok (JVal.str (String.mk [c]))
    | [] => Except.error ()
  | _ => Except.error ()

/-- The body of `parse_mod_files` for one enumerated entry: `none` when the
script would raise (`entry.get` on a non-dict, `downloads[0]` on an
unindexable value), `some none` when the entry is skipped, and
`some (some mf)` when it yields a `ModFile`. -/
def parse_entry (idx : Nat) (entry : JVal) : Option (Option ModFile) :=
  match entry with
  | JVal.obj e =>
    let pathV := (getVal e "path").getD (JVal.str "")
    match pathV with
    | JVal.str p =>
      if !(p.startsWith "mods/") then some none
      else
        let downloads := (getVal e "downloads").getD (JVal.arr [])
        if !(pyTruthy downloads) then some none
        else
          match pyIndex0 downloads with
          | Except.error _ => none
          | Except.ok d0 =>
            match d0 with
            | JVal.str url =>
              match searchDataVersion url with
              | none => some none
              | some (pid, vid) =>
                some (some { path := p, project_id := pid, version_id := vid, file_index := idx })
            | _ => some none
    | _ => some none
  | _ => none

/-- Fold of `parse_entry` over the enumerated file entries. -/
def parse_files_go : Nat → List JVal → Option (List ModFile)
  | _, [] => some []
  | idx, entry :: rest =>
    match parse_entry idx entry with
    | none => none
    | some none => parse_files_go (idx + 1) rest
    | some (some mf) =>
      match parse_files_go (idx + 1) rest with
      | none => none
      | some mfs => some (mf :: mfs)

/-- `parse_mod_files`: scan `index_json.get("files", [])` for entries whose
path lies under `mods/` and whose first download URL matches the version
pattern. `none` models an uncaught exception (non-dict root, non-iterable
`files` value, or a non-dict enumerated entry). -/
def parse_mod_files (index_json : JVal) : Option (List ModFile) :=
  match index_json with
  | JVal.obj fs =>
    match pyEnumerate ((getVal fs "files").getD (JVal.arr [])) with
    | none => none
    | some items => parse_files_go 0 items
  | _ => none

/-- Terminal behavior of the opening of `main` (load already done): either
an uncaught exception, the `SystemExit(1)` "No mods with Modrinth version
URLs found" path, or continuation into the network phase with the parsed
entries. -/
inductive EarlyOutcome where
  | uncaughtError
  | exitNoMods
  | proceeds (mods : List ModFile)
deriving DecidableEq

/-- The early `main` path (lines 403-410): parse the manifest's file
entries and exit when none qualify. No output file has been written in any
terminal branch of this phase. -/
def main_early (index_json : JVal) : EarlyOutcome :=
  match parse_mod_files index_json with
  | none => EarlyOutcome.uncaughtError
  | some [] => EarlyOutcome.exitNoMods
  | some mods => EarlyOutcome.proceeds mods

/-! ## Batched version lookup (`collect_versions_by_ids`) -/

/-- Net outcome of one `fetch_json` call (retries included). `netError`
covers the exception types the callers catch (`urllib.error.URLError`,
`urllib.error.HTTPError`, `TimeoutError`); `decodeError` covers exceptions
`fetch_json` can also raise but that no caller catches, such as
`json.JSONDecodeError` for a 200 response whose body is not JSON. -/
inductive FetchOutcome where
  | ok (v : JVal)
  | netError (msg : String)
  | decodeError (msg : String)

/-- The registry endpoints used by `collect_versions_by_ids`: the batch
`GET /versions?ids=[...]` keyed by the batch's id list, and the single
`GET /version/{id}`. -/
structure VersionsEnv where
  batch : List String → FetchOutcome
  single : String → FetchOutcome

/-- Split the sorted id list into consecutive batches of `szP + 1` ids
(`ids[i : i + size]` for `i in range(0, len(ids), size)` with
`size = max(1, batch_size)` encoded as `szP + 1`). -/
def chunksOf (szP : Nat) (l : List String) : List (List String) :=
  go l [] szP
where
  /-- Structural chunking: consume one id at a time with a countdown. -/
  go : List String → List String → Nat → List (List String)
    | [], acc, _ => if acc.isEmpty then [] else [acc.reverse]
    | x :: xs, acc, 0 => (x :: acc).reverse :: go xs [] szP
    | x :: xs, acc, k + 1 => go xs (x :: acc) k

/-- Absorb one item of a successful batch response into the mapping:
`data[item["id"]] = item` when the item is a dict with a string id. -/
def absorb_one (data : List (String × JVal)) (item : JVal) : List (String × JVal) :=
  match item with
  | JVal.obj f =>
    match getVal f "id" with
    | some (JVal.str s) => setKey data s item
    | _ => data
  | _ => data

/-- Absorb the items of one successful batch response, left to right. -/
def absorb_items (data : List (String × JVal)) : List JVal → List (String × JVal)
  | [] => data
  | item :: rest => absorb_items (absorb_one data item) rest

/-- The one-by-one fallback loop run after a failed batch:
`data[vid] = item` for each dict response, an error line per failed id; a
`decodeError` propagates as an uncaught exception. -/
def fallback_items (env : VersionsEnv) (data : List (String × JVal)) (errors : List String) :
    List String → Except String (List (String × JVal) × List String)
  | [] => Except.ok (data, errors)
  | vid :: rest =>
    match env.single vid with
    | FetchOutcome.ok item =>
      fallback_items env (if isObjB item then setKey data vid item else data) errors rest
    | FetchOutcome.netError e =>
      fallback_items env data (errors ++ ["version/" ++ vid ++ ": " ++ e]) rest
    | FetchOutcome.decodeError e => Except.error e

/-- The batch loop of `collect_versions_by_ids`: per batch, absorb a list
response, record an error for a non-list response, or fall back to
one-by-one fetches after a caught network error; `i` tracks the batch start
index used in error messages, advancing by `sz` per batch. -/
def process_batches (env : VersionsEnv) (sz : Nat) :
    List (List String) → Nat → List (String × JVal) → List String →
    Except String (List (String × JVal) × List String)
  | [], _, data, errors => Except.ok (data, errors)
  | batch :: rest, i, data, errors =>
    match env.batch batch with
    | FetchOutcome.ok items =>
      match items with
      | JVal.arr l => process_batches env sz rest (i + sz) (absorb_items data l) errors
      | _ =>
        process_batches env sz rest (i + sz) data
          (errors ++ ["versions batch starting at " ++ toString i ++ ": unexpected response type"])
    | FetchOutcome.netError e =>
      match fallback_items env data
          (errors ++ ["versions batch starting at " ++ toString i ++ ": " ++ e]) batch with
      | Except.ok (data2, errors2) => process_batches env sz rest (i + sz) data2 errors2
      | Except.error e2 => Except.error e2
    | FetchOutcome.decodeError e => Except.error e

/-- `collect_versions_by_ids`: sort the requested id set, fetch it in
batches of `max 1 batch_size` ids, and return the id-to-record mapping
together with the accumulated error lines. `Except.error` models an
exception escaping to the caller. The input set is modelled as a list;
`List.eraseDups` reproduces set semantics before sorting. -/
def collect_versions_by_ids (env : VersionsEnv) (version_ids : List String) (batch_size : Nat) :
    Except String (List (String × JVal) × List String) :=
  let ids := List.insertionSort strLe version_ids.eraseDups
  let sz := max 1 batch_size
  process_batches env sz (chunksOf (sz - 1) ids) 0 [] []

/-! ## Repair planner (`main`, lines 613-756, and its helpers) -/

/-- One unmet required dependency issue (`RequiredDepIssue`). The id fields
hold `None` for non-string values, as in the dataclass construction. -/
structure RequiredDepIssue where
  consumer_mod_path : String
  dep_project_id : Option String
  dep_version_id : Option String
  display : String
  detail : String

/-- `select_primary_file`: the first file asset flagged `primary`, else the
first dict asset, from `version_obj.get("files", []) or []`. -/
def select_primary_file (version_fields : List (String × JVal)) : Option (List (String × JVal)) :=
  let files :=
    match getVal version_fields "files" with
    | some v => if pyTruthy v then v else JVal.arr []
    | none => JVal.arr []
  match files with
  | JVal.arr [] => none
  | JVal.arr l =>
    match l.find? (fun f =>
        match f with
        | JVal.obj fo => pyTruthy (getPy fo "primary")
        | _ => false) with
    | some (JVal.obj fo) => some fo
    | _ =>
      match l.find? isObjB with
      | some (JVal.obj fo) => some fo
      | _ => none
  | _ => none

/-- `index_file_from_version`: build the manifest file entry for a version
object. `.ok none` when no usable asset exists (missing/non-string filename
or url); `.error ()` models the uncaught exception raised when the version
value is not a dict or its asset's `hashes` value is not a dict
(`hashes.get` on a non-dict). A JSON bool passes Python's
`isinstance(size, int)` (bool subclasses int). -/
def index_file_from_version (version_obj : JVal) : Except Unit (Option (List (String × JVal))) :=
  match version_obj with
  | JVal.obj vf =>
    match select_primary_file vf with
    | none => Except.ok none
    | some fo =>
      match getPy fo "filename", getPy fo "url" with
      | JVal.str filename, JVal.str url =>
        match (getVal fo "hashes").getD (JVal.obj []) with
        | JVal.obj hashes =>
          let sha512 := match getVal hashes "sha512" with
            | some v => pyStr v
            | none => ""
          let sha1 := match getVal hashes "sha1" with
            | some v => pyStr v
            | none => ""
          let fileSize : Int :=
            match (getVal fo "size").getD (JVal.num 0) with
            | JVal.num n => n
            | JVal.bool b => if b then 1 else 0
            | _ => 0
          Except.ok (some
            [("path", JVal.str ("mods/" ++ filename)),
             ("hashes", JVal.obj [("sha512", JVal.str sha512), ("sha1", JVal.str sha1)]),
             ("env", JVal.obj [("client", JVal.str "required"), ("server", JVal.str "required")]),
             ("downloads", JVal.arr [JVal.str url]),
             ("fileSize", JVal.num fileSize)])
        | _ => Except.error ()
      | _, _ => Except.ok none
  | _ => Except.error ()

/-- The selection step of `fetch_latest_compatible_version` applied to the
fetched version list: the first dict item of a nonempty list, else `None`. -/
def fetch_latest_pick (items : JVal) : Option JVal :=
  match items with
  | JVal.arr [] => none
  | JVal.arr l => l.find? isObjB
  | _ => none

/-- `infer_loaders`: the known loaders present among the manifest's runtime
dependency keys, defaulting to `["neoforge"]`. -/
def infer_loaders (runtime_keys : List String) : List String :=
  let out := ["neoforge", "forge", "fabric", "quilt"].filter
    (fun k => runtime_keys.contains k)
  if out.isEmpty then ["neoforge"] else out

/-- The repair section's fixed context: the registry endpoints it may call
and the values `main` computed before entering it. -/
structure RepairCtx where
  fetch_version : String → FetchOutcome
  project_versions : String → Option String → List String → FetchOutcome
  project_to_entries : List (String × List ModFile)
  mc_version : Option String
  loaders : List String
  allow_downgrade : Bool

/-- State threaded through the repair loop: the (aliased) files list, the
version cache, the change/skip reports and the log of registry calls issued
by the repair section. -/
structure RepairState where
  files : List JVal
  cache : List (String × JVal)
  changes : List String
  skipped : List String
  calls : List String

/-- `sorted({i.dep_version_id for i in issues if i.dep_version_id})`: the
ascending list of distinct truthy pinned version ids in a repair group. -/
def distinct_required_vids (issues : List RequiredDepIssue) : List String :=
  List.insertionSort strLe
    ((issues.filterMap (fun i =>
        match i.dep_version_id with
        | some v => if v != "" then some v else none
        | none => none)).eraseDups)

/-- The in-place replacement of lines 720-725: read the old entry at the
chosen index (raising for an out-of-range index or a non-dict entry), then
overwrite it with the new entry at the same position. -/
def repair_apply (dep_pid tvid : String) (ne : List (String × JVal)) (first : ModFile)
    (st : RepairState) : Option RepairState :=
  match st.files[first.file_index]? with
  | some (JVal.obj oldf) =>
    let old_path :=
      match getVal oldf "path" with
      | some v => pyStr v
      | none => "mods/unknown-" ++ dep_pid ++ ".jar"
    some { st with
      files := st.files.set first.file_index (JVal.obj ne),
      changes := st.changes ++
        ["updated " ++ dep_pid ++ ": " ++ old_path ++ " -> " ++ pyStr (getPy ne "path") ++
         " (version " ++ tvid ++ ")"] }
  | _ => none

/-- The downgrade-protection block of lines 691-718 followed by the
replacement: when the installed version differs and the override flag is
unset, resolve the installed version's record (cache first, then a fetch
whose network failure degrades to "unknown"), compare `date_published`
strings, and skip when the target's is lexicographically earlier. -/
def repair_downgrade_then_apply (ctx : RepairCtx) (dep_pid tvid : String)
    (tf ne : List (String × JVal)) (first : ModFile) (st : RepairState) : Option RepairState :=
  if (first.version_id != tvid) && !ctx.allow_downgrade then
    let resolved : Option (Option JVal × RepairState) :=
      match lookup st.cache first.version_id with
      | some o => some (some o, st)
      | none =>
        match ctx.fetch_version first.version_id with
        | FetchOutcome.decodeError _ => none
        | FetchOutcome.netError _ =>
          some (none, { st with calls := st.calls ++ ["version/" ++ first.version_id] })
        | FetchOutcome.ok v =>
          if isObjB v then
            some (some v, { st with
              cache := setKey st.cache first.version_id v,
              calls := st.calls ++ ["version/" ++ first.version_id] })
          else
            some (none, { st with calls := st.calls ++ ["version/" ++ first.version_id] })
    match resolved with
    | none => none
    | some (current_obj, st2) =>
      let current_date : Option JVal :=
        match current_obj with
        | some (JVal.obj cf) => some (getPy cf "date_published")
        | _ => none
      let target_date := getPy tf "date_published"
      let blocked :=
        match current_date, target_date with
        | some (JVal.str cd), JVal.str td => decide (strLt td cd)
        | _, _ => false
      if blocked then
        some { st2 with skipped := st2.skipped ++
          [dep_pid ++ ": downgrade blocked (" ++ first.version_id ++ " -> " ++ tvid ++
           "); use --allow-downgrade-deps to force"] }
      else
        repair_apply dep_pid tvid ne first st2
  else
    repair_apply dep_pid tvid ne first st

/-- Lines 682-728: build the replacement entry from the resolved target
version, then replace the entry at the package's lowest manifest index
(after downgrade protection) or append a new entry when the package has no
installed entry. -/
def repair_after_entry (ctx : RepairCtx) (dep_pid tvid : String)
    (tf : List (String × JVal)) (st : RepairState) : Option RepairState :=
  match index_file_from_version (JVal.obj tf) with
  | Except.error _ => none
  | Except.ok none =>
    some { st with skipped := st.skipped ++
      [dep_pid ++ ": target version " ++ tvid ++ " has no usable file metadata"] }
  | Except.ok (some ne) =>
    let existing := (lookup ctx.project_to_entries dep_pid).getD []
    match List.insertionSort (fun a b : ModFile => a.file_index ≤ b.file_index) existing with
    | [] =>
      some { st with
        files := st.files ++ [JVal.obj ne],
        changes := st.changes ++
          ["added " ++ dep_pid ++ ": " ++ pyStr (getPy ne "path") ++ " (version " ++ tvid ++ ")"] }
    | first :: _ => repair_downgrade_then_apply ctx dep_pid tvid tf ne first st

/-- The `if not target_version_obj or not target_vid` gate of lines
678-680 (Python truthiness: an empty dict or empty id string also skips),
followed by `repair_after_entry`. -/
def repair_check_resolved (ctx : RepairCtx) (dep_pid : String)
    (target_obj : Option JVal) (target_vid : Option String) (st : RepairState) :
    Option RepairState :=
  match target_obj, target_vid with
  | some tobj, some tvid =>
    if pyTruthy tobj && (tvid != "") then
      match tobj with
      | JVal.obj tf => repair_after_entry ctx dep_pid tvid tf st
      | _ => none
    else
      some { st with skipped := st.skipped ++ [dep_pid ++ ": no target version resolved"] }
  | _, _ =>
    some { st with skipped := st.skipped ++ [dep_pid ++ ": no target version resolved"] }

/-- One iteration of the repair loop (lines 638-728) for the group of
issues sharing target package `dep_pid`: conflict detection over the
distinct pinned version ids, target resolution (pinned id via cache or
fetch; otherwise latest compatible version), then entry construction and
application. `none` models an uncaught exception. -/
def repair_step (ctx : RepairCtx) (st : RepairState) (dep_pid : String)
    (issues : List RequiredDepIssue) : Option RepairState :=
  let required_vids := distinct_required_vids issues
  if 1 < required_vids.length then
    some { st with skipped := st.skipped ++
      [dep_pid ++ ": conflicting required versions " ++ String.intercalate ", " required_vids] }
  else
    match required_vids.head? with
    | some tvid =>
      match lookup st.cache tvid with
      | some tobj => repair_check_resolved ctx dep_pid (some tobj) (some tvid) st
      | none =>
        match ctx.fetch_version tvid with
        | FetchOutcome.decodeError _ => none
        | FetchOutcome.netError e =>
          some { st with
            calls := st.calls ++ ["version/" ++ tvid],
            skipped := st.skipped ++
              [dep_pid ++ ": cannot fetch required version " ++ tvid ++ " (" ++ e ++ ")"] }
        | FetchOutcome.ok v =>
          if isObjB v then
            repair_check_resolved ctx dep_pid (some v) (some tvid)
              { st with cache := setKey st.cache tvid v, calls := st.calls ++ ["version/" ++ tvid] }
          else
            repair_check_resolved ctx dep_pid none (some tvid)
              { st with calls := st.calls ++ ["version/" ++ tvid] }
    | none =>
      match ctx.project_versions dep_pid ctx.mc_version ctx.loaders with
      | FetchOutcome.decodeError _ => none
      | FetchOutcome.netError e =>
        some { st with
          calls := st.calls ++ ["project/" ++ dep_pid ++ "/version"],
          skipped := st.skipped ++ [dep_pid ++ ": cannot fetch compatible version (" ++ e ++ ")"] }
      | FetchOutcome.ok items =>
        let st2 := { st with calls := st.calls ++ ["project/" ++ dep_pid ++ "/version"] }
        match fetch_latest_pick items with
        | none => repair_check_resolved ctx dep_pid none none st2
        | some tobj =>
          match tobj with
          | JVal.obj tf =>
            match getVal tf "id" with
            | some (JVal.str tv) =>
              repair_check_resolved ctx dep_pid (some tobj) (some tv)
                { st2 with cache := setKey st2.cache tv tobj }
            | _ => repair_check_resolved ctx dep_pid (some tobj) none st2
          | _ => none

/-- `issues_by_project.setdefault(pid, []).append(issue)`. -/
def appendIssue (m : List (String × List RequiredDepIssue)) (k : String)
    (i : RequiredDepIssue) : List (String × List RequiredDepIssue) :=
  if (m.find? (fun p => p.1 == k)).isSome then
    m.map (fun p => if p.1 == k then (p.1, p.2 ++ [i]) else p)
  else
    m ++ [(k, [i])]

/-- Lines 623-629: left-to-right grouping of the unmet issues by target
package id (insertion-ordered, as a Python dict), counting issues without a
truthy package id separately. -/
def group_issues_go (acc : List (String × List RequiredDepIssue)) (n : Nat) :
    List RequiredDepIssue → List (String × List RequiredDepIssue) × Nat
  | [] => (acc, n)
  | issue :: rest =>
    if truthyS issue.dep_project_id then
      group_issues_go (appendIssue acc (issue.dep_project_id.getD "") issue) n rest
    else
      group_issues_go acc (n + 1) rest

/-- Grouping of the unmet-required issue list, starting from an empty dict. -/
def group_issues (unmet : List RequiredDepIssue) :
    List (String × List RequiredDepIssue) × Nat :=
  group_issues_go [] 0 unmet

/-- Result of the repair section: the final in-memory index object, the
normalized JSON written out (if any), the reports, and the registry calls
issued by the repair section itself. -/
structure RepairRun where
  index : List (String × JVal)
  written : Option JVal
  changes : List String
  skipped : List String
  calls : List String

/-- The repair loop over the grouped issues, sorted ascending by package id
(`sorted(issues_by_project.items())`), propagating an uncaught exception. -/
def repair_groups (ctx : RepairCtx) (st : RepairState) :
    List (String × List RequiredDepIssue) → Option RepairState
  | [] => some st
  | (dep_pid, issues) :: rest =>
    match repair_step ctx st dep_pid issues with
    | none => none
    | some st2 => repair_groups ctx st2 rest

/-- The whole repair section of `main` (lines 613-756) as entered with
`--fix-index`: nothing at all happens when the reconciliation pass found no
unmet required edges; a non-list `files` value only prints an error; else
run the loop over the sorted groups, then normalize the (alias-mutated)
index and write it. When `files` was absent, the loop mutates the detached
`[]` default, so the written index does not see the mutations. `cache0` is
the copy `dict(version_data)` of the reconciliation pass's version data. -/
def repair_phase (ctx : RepairCtx) (fsRoot : List (String × JVal))
    (unmet : List RequiredDepIssue) (cache0 : List (String × JVal)) : Option RepairRun :=
  if unmet.isEmpty then
    some { index := fsRoot, written := none, changes := [], skipped := [], calls := [] }
  else
    match getVal fsRoot "files" with
    | some (JVal.arr files0) => repair_body ctx fsRoot unmet cache0 files0 true
    | some _ =>
      some { index := fsRoot, written := none, changes := [], skipped := [], calls := [] }
    | none => repair_body ctx fsRoot unmet cache0 [] false
where
  /-- Grouping, the loop, normalization and the write (lines 623-751). -/
  repair_body (ctx : RepairCtx) (fsRoot : List (String × JVal))
      (unmet : List RequiredDepIssue) (cache0 : List (String × JVal))
      (files0 : List JVal) (attached : Bool) : Option RepairRun :=
    let (groups, nopid) := group_issues unmet
    let sortedGroups :=
      List.insertionSort (fun a b : String × List RequiredDepIssue => strLe a.1 b.1) groups
    match repair_groups ctx
        { files := files0, cache := cache0, changes := [], skipped := [], calls := [] }
        sortedGroups with
    | none => none
    | some st =>
      let skippedAll := st.skipped ++
        (if 0 < nopid then [toString nopid ++ " dependency entries without project_id"] else [])
      let finalIndex :=
        if attached then setKey fsRoot "files" (JVal.arr st.files) else fsRoot
      match normalize_modrinth_index (JVal.obj finalIndex) with
      | none => none
      | some norm =>
        some { index := finalIndex, written := some norm, changes := st.changes,
               skipped := skippedAll, calls := st.calls }

/-! ## Concrete fixtures used by witnesses -/

/-- A cached target version record for package `P`: id `vNew`, published
2024-01-01, one primary file asset. -/
def tfNew : List (String × JVal) :=
  [("id", JVal.str "vNew"), ("date_published", JVal.str "2024-01-01"),
   ("files", JVal.arr [JVal.obj [("filename", JVal.str "new.jar"),
     ("url", JVal.str "u"), ("primary", JVal.bool true),
     ("hashes", JVal.obj [("sha512", JVal.str "h5"), ("sha1", JVal.str "h1")]),
     ("size", JVal.num 10)]])]

/-- The manifest entry `index_file_from_version` builds from `tfNew`. -/
def neNew : List (String × JVal) :=
  [("path", JVal.str ("mods/" ++ "new.jar")),
   ("hashes", JVal.obj [("sha512", JVal.str "h5"), ("sha1", JVal.str "h1")]),
   ("env", JVal.obj [("client", JVal.str "required"), ("server", JVal.str "required")]),
   ("downloads", JVal.arr [JVal.str "u"]), ("fileSize", JVal.num 10)]

/-- The cached installed version record `vOld`, published 2024-06-01. -/
def cfOld : List (String × JVal) :=
  [("date_published", JVal.str "2024-06-01")]

/-- The installed entry for package `P` at manifest index 0. -/
def firstOld : ModFile :=
  { path := "mods/old.jar", project_id := "P", version_id := "vOld", file_index := 0 }

/-- A consumer issue pinning package `P` at exact version `vNew`. -/
def issueNew : RequiredDepIssue :=
  { consumer_mod_path := "mods/consumer.jar", dep_project_id := some "P",
    dep_version_id := some "vNew", display := "P", detail := "d" }

/-- A repair context whose registry is down, with `P` installed via
`firstOld` and the downgrade override unset. -/
def ctxDown : RepairCtx :=
  { fetch_version := fun _ => FetchOutcome.netError "down",
    project_versions := fun _ _ _ => FetchOutcome.netError "down",
    project_to_entries := [("P", [firstOld])],
    mc_version := none, loaders := ["neoforge"], allow_downgrade := false }

/-- `ctxDown` with the downgrade override set. -/
def ctxAllow : RepairCtx :=
  { ctxDown with allow_downgrade := true }

/-- `ctxDown` with no installed entries for any package. -/
def ctxEmpty : RepairCtx :=
  { ctxDown with project_to_entries := [] }

/-- A repair state holding the single installed file entry and both version
records in cache. -/
def stOld : RepairState :=
  { files := [JVal.obj [("path", JVal.str "mods/old.jar")]],
    cache := [("vNew", JVal.obj tfNew), ("vOld", JVal.obj cfOld)],
    changes := [], skipped := [], calls := [] }

/-- A registry whose batch endpoint always fails with a caught network
error and whose single-version endpoint answers with a dict record. -/
def envFallback : VersionsEnv :=
  { batch := fun _ => FetchOutcome.netError "HTTP Error 503",
    single := fun v => FetchOutcome.ok (JVal.obj [("id", JVal.str v)]) }

/-! ## Association-list lemmas -/

theorem getVal_cons_self (k : String) (v : JVal) (rest : List (String × JVal)) :
    getVal ((k, v) :: rest) k = some v := by
  simp [getVal, List.find?_cons]

theorem getVal_cons_ne (k q : String) (v : JVal) (rest : List (String × JVal))
    (h : ¬ k = q) : getVal ((k, v) :: rest) q = getVal rest q := by
  simp [getVal, List.find?_cons, h]

theorem getVal_append (xs ys : List (String × JVal)) (k : String) :
    getVal (xs ++ ys) k = (getVal xs k).or (getVal ys k) := by
  cases hx : List.find? (fun p => p.1 == k) xs <;>
    simp [getVal, List.find?_append, hx, Option.or]

theorem getVal_eq_none_of_keys (xs : List (String × JVal)) (k : String)
    (h : ∀ p ∈ xs, ¬ p.1 = k) : getVal xs k = none := by
  have : List.find? (fun p => p.1 == k) xs = none := by
    apply List.find?_eq_none.mpr
    intro p hp
    simpa using h p hp
  simp [getVal, this]

/-! ## Claims about the satisfaction classification (C1, C7) -/

/-- C1: for an installed entry with a required edge that targets an
installed package (`lookup installed_projects pid = some vs`) and pins an
exact version id, the computed state is `OK` iff that id is among the
target's installed version ids, and `MISSING` otherwise — even though the
package itself is installed (under other versions). -/
theorem pinned_required_edge_exact_match (installed_projects : List (String × List String))
    (project_slug_map : List (String × String)) (runtime_keys installed_version_ids : List String)
    (pid vid : String) (vs : List String)
    (hpid : pid ≠ "") (hvid : vid ≠ "")
    (hinst : lookup installed_projects pid = some vs) :
    (dep_state (provided_flag installed_projects project_slug_map runtime_keys
        installed_version_ids (some pid) (some vid)) "required" = "OK"
      ↔ vs.contains vid = true) ∧
    (vs.contains vid = false →
      dep_state (provided_flag installed_projects project_slug_map runtime_keys
        installed_version_ids (some pid) (some vid)) "required" = "MISSING") := by
  cases hc : vs.contains vid <;>
    simp_all [provided_flag, dep_state, truthyS, hpid, hvid, hinst]

/-- Witness for C1: package `P` installed only at `v1`; an edge pinning
`v2` is `MISSING`, not `OK`. -/
theorem pinned_required_edge_exact_match_witness :
    (dep_state (provided_flag [("P", ["v1"])] [] [] [] (some "P") (some "v2")) "required" = "OK"
      ↔ ["v1"].contains "v2" = true) ∧
    (["v1"].contains "v2" = false →
      dep_state (provided_flag [("P", ["v1"])] [] [] [] (some "P") (some "v2")) "required"
        = "MISSING") :=
  pinned_required_edge_exact_match [("P", ["v1"])] [] [] [] "P" "v2" ["v1"]
    (by decide) (by decide) (by rfl)

/-- C7: a provided edge is classified `OK` regardless of kind (incompatible
included); an unprovided edge's state is determined solely by its kind:
required is `MISSING`, optional is `OPTIONAL_UNMET`, incompatible is
`INCOMPATIBLE_PRESENT`, anything else is `UNMET` (in the spec's state
vocabulary for the script's display strings). -/
theorem provided_overrides_kind (provided : Bool) (kind : String) :
    specStateOfDisplay (dep_state provided kind) =
      if provided then SatisfactionState.OK
      else if kind = "required" then SatisfactionState.MISSING
      else if kind = "optional" then SatisfactionState.OPTIONAL_UNMET
      else if kind = "incompatible" then SatisfactionState.INCOMPATIBLE_PRESENT
      else SatisfactionState.UNMET := by
  cases provided
  · by_cases h1 : kind = "required" <;> by_cases h2 : kind = "optional" <;>
      by_cases h3 : kind = "incompatible" <;>
      simp [dep_state, specStateOfDisplay, h1, h2, h3]
  · simp [dep_state, specStateOfDisplay]

/-! ## Claims about the repair planner (C3, C6) -/

/-- C3: when a repair group pins more than one distinct exact version id,
the package is skipped with a conflict diagnostic that names all the
conflicting version ids (comma-joined), and the files list, change list,
cache and registry-call log are all left untouched. -/
theorem conflicting_versions_skip_package (ctx : RepairCtx) (st : RepairState)
    (dep_pid : String) (issues : List RequiredDepIssue)
    (h : 1 < (distinct_required_vids issues).length) :
    repair_step ctx st dep_pid issues =
      some { st with skipped := st.skipped ++
        [dep_pid ++ ": conflicting required versions " ++
         String.intercalate ", " (distinct_required_vids issues)] } := by
  unfold repair_step
  simp [h]

/-- Witness for C3: two consumers pin `P` at `v1` and `v2`; `P` is skipped
with a diagnostic naming both and no state changes. -/
theorem conflicting_versions_skip_package_witness :
    repair_step
      { fetch_version := fun _ => FetchOutcome.netError "down",
        project_versions := fun _ _ _ => FetchOutcome.netError "down",
        project_to_entries := [], mc_version := none,
        loaders := ["neoforge"], allow_downgrade := false }
      { files := [], cache := [], changes := [], skipped := [], calls := [] }
      "P"
      [{ consumer_mod_path := "mods/a.jar", dep_project_id := some "P",
         dep_version_id := some "v1", display := "P", detail := "d" },
       { consumer_mod_path := "mods/b.jar", dep_project_id := some "P",
         dep_version_id := some "v2", display := "P", detail := "d" }] =
      some { files := [], cache := [], changes := [],
             skipped := ["P: conflicting required versions v1, v2"], calls := [] } := by
  have h := conflicting_versions_skip_package
    { fetch_version := fun _ => FetchOutcome.netError "down",
      project_versions := fun _ _ _ => FetchOutcome.netError "down",
      project_to_entries := [], mc_version := none,
      loaders := ["neoforge"], allow_downgrade := false }
    { files := [], cache := [], changes := [], skipped := [], calls := [] }
    "P"
    [{ consumer_mod_path := "mods/a.jar", dep_project_id := some "P",
       dep_version_id := some "v1", display := "P", detail := "d" },
     { consumer_mod_path := "mods/b.jar", dep_project_id := some "P",
       dep_version_id := some "v2", display := "P", detail := "d" }]
    (by decide)
  simpa using h

/-- C6: a repair run whose reconciliation pass found zero unmet required
edges mutates nothing: the index is returned unchanged, no output is
written, and the repair section issues zero registry calls. -/
theorem no_unmet_edges_repair_is_noop (ctx : RepairCtx) (fsRoot : List (String × JVal))
    (cache0 : List (String × JVal)) :
    repair_phase ctx fsRoot [] cache0 =
      some { index := fsRoot, written := none, changes := [], skipped := [], calls := [] } := by
  simp [repair_phase]

/-! ## Claim about the shape of normalized output (C10) -/

/-- C10: normalization of any JSON object materializes all seven canonical
top-level keys: the five scalar keys carry `index_json.get(key)` (so `null`
when absent from the input), `files` is always a list (the empty list when
the input's `files` value is not a list), and `dependencies` is always an
object (the empty object when the input's value is not one) — normalization
is not content-preserving on inputs missing or mistyping these keys. -/
theorem normalize_materializes_canonical_keys (fs : List (String × JVal)) (r : JVal)
    (h : normalize_modrinth_index (JVal.obj fs) = some r) :
    ∃ rfs, r = JVal.obj rfs ∧
      getVal rfs "game" = some (getPy fs "game") ∧
      getVal rfs "formatVersion" = some (getPy fs "formatVersion") ∧
      getVal rfs "versionId" = some (getPy fs "versionId") ∧
      getVal rfs "name" = some (getPy fs "name") ∧
      getVal rfs "summary" = some (getPy fs "summary") ∧
      (getVal fs "game" = none → getVal rfs "game" = some JVal.null) ∧
      (∃ l, getVal rfs "files" = some (JVal.arr l)) ∧
      (∃ d, getVal rfs "dependencies" = some (JVal.obj d)) ∧
      (∀ v, getVal fs "files" = some v → (∀ l, v ≠ JVal.arr l) →
        getVal rfs "files" = some (JVal.arr [])) ∧
      (∀ v, getVal fs "dependencies" = some v → (∀ d, v ≠ JVal.obj d) →
        getVal rfs "dependencies" = some (JVal.obj [])) := by
  simp only [normalize_modrinth_index] at h
  cases hf : normFilesOut fs with
  | none => rw [hf] at h; cases h
  | some fOut =>
    rw [hf] at h
    injection h with h2
    subst h2
    have hcanon : normCanon fs ++ [("files", fOut), ("dependencies", normDepsOut fs)] ++
        normExtras fs =
        ("game", getPy fs "game") :: ("formatVersion", getPy fs "formatVersion") ::
        ("versionId", getPy fs "versionId") :: ("name", getPy fs "name") ::
        ("summary", getPy fs "summary") :: ("files", fOut) ::
        ("dependencies", normDepsOut fs) :: normExtras fs := by
      simp [normCanon]
    refine ⟨_, rfl, ?_, ?_, ?_, ?_, ?_, ?_, ?_, ?_, ?_, ?_⟩ <;>
      rw [hcanon]
    · rw [getVal_cons_self]
    · rw [getVal_cons_ne _ _ _ _ (by decide), getVal_cons_self]
    · rw [getVal_cons_ne _ _ _ _ (by decide), getVal_cons_ne _ _ _ _ (by decide),
        getVal_cons_self]
    · rw [getVal_cons_ne _ _ _ _ (by decide), getVal_cons_ne _ _ _ _ (by decide),
        getVal_cons_ne _ _ _ _ (by decide), getVal_cons_self]
    · rw [getVal_cons_ne _ _ _ _ (by decide), getVal_cons_ne _ _ _ _ (by decide),
        getVal_cons_ne _ _ _ _ (by decide), getVal_cons_ne _ _ _ _ (by decide),
        getVal_cons_self]
    · intro hnone
      rw [getVal_cons_self, getPy, hnone]
      rfl
    · have hv : getVal (("game", getPy fs "game") :: ("formatVersion", getPy fs "formatVersion") ::
          ("versionId", getPy fs "versionId") :: ("name", getPy fs "name") ::
          ("summary", getPy fs "summary") :: ("files", fOut) ::
          ("dependencies", normDepsOut fs) :: normExtras fs) "files" = some fOut := by
        rw [getVal_cons_ne _ _ _ _ (by decide), getVal_cons_ne _ _ _ _ (by decide),
          getVal_cons_ne _ _ _ _ (by decide), getVal_cons_ne _ _ _ _ (by decide),
          getVal_cons_ne _ _ _ _ (by decide), getVal_cons_self]
      rw [hv]
      unfold normFilesOut at hf
      rcases hv2 : (getVal fs "files").getD (JVal.arr []) with _ | _ | _ | _ | l | _ <;>
        rw [hv2] at hf <;> first
          | (injection hf with hf2; exact ⟨_, by rw [← hf2]⟩)
          | (by_cases ha : l.all isObjB <;> simp [ha] at hf <;> exact ⟨_, by rw [← hf]⟩)
    · have hv : getVal (("game", getPy fs "game") :: ("formatVersion", getPy fs "formatVersion") ::
          ("versionId", getPy fs "versionId") :: ("name", getPy fs "name") ::
          ("summary", getPy fs "summary") :: ("files", fOut) ::
          ("dependencies", normDepsOut fs) :: normExtras fs) "dependencies" =
          some (normDepsOut fs) := by
        rw [getVal_cons_ne _ _ _ _ (by decide), getVal_cons_ne _ _ _ _ (by decide),
          getVal_cons_ne _ _ _ _ (by decide), getVal_cons_ne _ _ _ _ (by decide),
          getVal_cons_ne _ _ _ _ (by decide), getVal_cons_ne _ _ _ _ (by decide),
          getVal_cons_self]
      rw [hv]
      unfold normDepsOut
      rcases (getVal fs "dependencies").getD (JVal.obj []) with _ | _ | _ | _ | _ | d <;>
        exact ⟨_, rfl⟩
    · intro v hvfs hvnot
      have hv : getVal (("game", getPy fs "game") :: ("formatVersion", getPy fs "formatVersion") ::
          ("versionId", getPy fs "versionId") :: ("name", getPy fs "name") ::
          ("summary", getPy fs "summary") :: ("files", fOut) ::
          ("dependencies", normDepsOut fs) :: normExtras fs) "files" = some fOut := by
        rw [getVal_cons_ne _ _ _ _ (by decide), getVal_cons_ne _ _ _ _ (by decide),
          getVal_cons_ne _ _ _ _ (by decide), getVal_cons_ne _ _ _ _ (by decide),
          getVal_cons_ne _ _ _ _ (by decide), getVal_cons_self]
      rw [hv]
      unfold normFilesOut at hf
      rw [hvfs] at hf
      rcases v with _ | _ | _ | _ | l | _ <;> simp at hf <;>
        first
          | (rw [← hf])
          | (exact absurd rfl (hvnot _))
    · intro v hvfs hvnot
      have hv : getVal (("game", getPy fs "game") :: ("formatVersion", getPy fs "formatVersion") ::
          ("versionId", getPy fs "versionId") :: ("name", getPy fs "name") ::
          ("summary", getPy fs "summary") :: ("files", fOut) ::
          ("dependencies", normDepsOut fs) :: normExtras fs) "dependencies" =
          some (normDepsOut fs) := by
        rw [getVal_cons_ne _ _ _ _ (by decide), getVal_cons_ne _ _ _ _ (by decide),
          getVal_cons_ne _ _ _ _ (by decide), getVal_cons_ne _ _ _ _ (by decide),
          getVal_cons_ne _ _ _ _ (by decide), getVal_cons_ne _ _ _ _ (by decide),
          getVal_cons_self]
      rw [hv]
      unfold normDepsOut
      rw [hvfs]
      rcases v with _ | _ | _ | _ | _ | d
      · rfl
      · rfl
      · rfl
      · rfl
      · rfl
      · exact absurd rfl (hvnot _)

/-- Witness for C10, at a manifest whose `files` is a string and whose
`dependencies` is a number. -/
theorem normalize_materializes_canonical_keys_witness :
    ∃ rfs, JVal.obj [("game", JVal.null), ("formatVersion", JVal.null),
        ("versionId", JVal.null), ("name", JVal.null), ("summary", JVal.null),
        ("files", JVal.arr []), ("dependencies", JVal.obj [])] = JVal.obj rfs ∧
      getVal rfs "game" = some (getPy [("files", JVal.str "nope"), ("dependencies", JVal.num 3)] "game") ∧
      getVal rfs "formatVersion" = some (getPy [("files", JVal.str "nope"), ("dependencies", JVal.num 3)] "formatVersion") ∧
      getVal rfs "versionId" = some (getPy [("files", JVal.str "nope"), ("dependencies", JVal.num 3)] "versionId") ∧
      getVal rfs "name" = some (getPy [("files", JVal.str "nope"), ("dependencies", JVal.num 3)] "name") ∧
      getVal rfs "summary" = some (getPy [("files", JVal.str "nope"), ("dependencies", JVal.num 3)] "summary") ∧
      (getVal [("files", JVal.str "nope"), ("dependencies", JVal.num 3)] "game" = none →
        getVal rfs "game" = some JVal.null) ∧
      (∃ l, getVal rfs "files" = some (JVal.arr l)) ∧
      (∃ d, getVal rfs "dependencies" = some (JVal.obj d)) ∧
      (∀ v, getVal [("files", JVal.str "nope"), ("dependencies", JVal.num 3)] "files" = some v →
        (∀ l, v ≠ JVal.arr l) → getVal rfs "files" = some (JVal.arr [])) ∧
      (∀ v, getVal [("files", JVal.str "nope"), ("dependencies", JVal.num 3)] "dependencies" = some v →
        (∀ d, v ≠ JVal.obj d) → getVal rfs "dependencies" = some (JVal.obj [])) :=
  normalize_materializes_canonical_keys
    [("files", JVal.str "nope"), ("dependencies", JVal.num 3)]
    (JVal.obj [("game", JVal.null), ("formatVersion", JVal.null),
      ("versionId", JVal.null), ("name", JVal.null), ("summary", JVal.null),
      ("files", JVal.arr []), ("dependencies", JVal.obj [])])
    (by rfl)

/-! ## Idempotence machinery for `promote2` (C2) -/

theorem getVal_promote2_k1 (k1 k2 : String) (m : List (String × JVal)) (h : ¬ k2 = k1) :
    getVal (promote2 k1 k2 m) k1 = getVal m k1 := by
  unfold promote2
  rw [getVal_append, getVal_append]
  have hF : getVal (m.filter (fun p => p.1 != k1 && p.1 != k2)) k1 = none := by
    apply getVal_eq_none_of_keys
    intro p hp
    have hm := (List.mem_filter.mp hp).2
    simp only [bne_iff_ne, ne_eq, Bool.and_eq_true, decide_eq_true_eq] at hm
    exact hm.1
  have hB : getVal (match getVal m k2 with
      | some v => [(k2, v)]
      | none => ([] : List (String × JVal))) k1 = none := by
    cases hv : getVal m k2 with
    | some v => rw [getVal_cons_ne _ _ _ _ h]; rfl
    | none => rfl
  cases hv : getVal m k1 with
  | some v => rw [getVal_cons_self]; rfl
  | none => rw [hB, hF]; rfl

theorem getVal_promote2_k2 (k1 k2 : String) (m : List (String × JVal)) (h : ¬ k1 = k2) :
    getVal (promote2 k1 k2 m) k2 = getVal m k2 := by
  unfold promote2
  rw [getVal_append, getVal_append]
  have hF : getVal (m.filter (fun p => p.1 != k1 && p.1 != k2)) k2 = none := by
    apply getVal_eq_none_of_keys
    intro p hp
    have hm := (List.mem_filter.mp hp).2
    simp only [bne_iff_ne, ne_eq, Bool.and_eq_true, decide_eq_true_eq] at hm
    exact hm.2
  have hA : getVal (match getVal m k1 with
      | some v => [(k1, v)]
      | none => ([] : List (String × JVal))) k2 = none := by
    cases hv : getVal m k1 with
    | some v => rw [getVal_cons_ne _ _ _ _ h]; rfl
    | none => rfl
  rw [hA]
  cases hv : getVal m k2 with
  | some v => rw [getVal_cons_self]; rfl
  | none => rw [hF]; rfl

theorem filter_promote2 (k1 k2 : String) (m : List (String × JVal)) :
    (promote2 k1 k2 m).filter (fun p => p.1 != k1 && p.1 != k2) =
      m.filter (fun p => p.1 != k1 && p.1 != k2) := by
  unfold promote2
  rw [List.filter_append, List.filter_append]
  have hA : (match getVal m k1 with
      | some v => [(k1, v)]
      | none => ([] : List (String × JVal))).filter
        (fun p : String × JVal => p.1 != k1 && p.1 != k2) = [] := by
    cases getVal m k1 <;> simp
  have hB : (match getVal m k2 with
      | some v => [(k2, v)]
      | none => ([] : List (String × JVal))).filter
        (fun p : String × JVal => p.1 != k1 && p.1 != k2) = [] := by
    cases getVal m k2 <;> simp
  have hF : (m.filter (fun p => p.1 != k1 && p.1 != k2)).filter
      (fun p => p.1 != k1 && p.1 != k2) = m.filter (fun p => p.1 != k1 && p.1 != k2) := by
    rw [List.filter_filter]
    apply List.filter_congr
    intro p _
    rw [Bool.and_self]
  rw [hA, hB, hF]
  rfl

theorem promote2_ext (k1 k2 : String) (m m' : List (String × JVal))
    (h1 : getVal m k1 = getVal m' k1) (h2 : getVal m k2 = getVal m' k2)
    (h3 : m.filter (fun p => p.1 != k1 && p.1 != k2) =
      m'.filter (fun p => p.1 != k1 && p.1 != k2)) :
    promote2 k1 k2 m = promote2 k1 k2 m' := by
  unfold promote2
  rw [h1, h2, h3]

/-- `promote2` is a no-op on its own output. -/
theorem promote2_idem (k1 k2 : String) (m : List (String × JVal)) (h : ¬ k1 = k2) :
    promote2 k1 k2 (promote2 k1 k2 m) = promote2 k1 k2 m := by
  apply promote2_ext
  · exact getVal_promote2_k1 k1 k2 m (fun e => h e.symm)
  · exact getVal_promote2_k2 k1 k2 m h
  · exact filter_promote2 k1 k2 m

/-! ## Idempotence machinery for `ordered_file_entry` (C2) -/

theorem hashes_part_keys (e : List (String × JVal)) :
    ∀ p ∈ hashes_part e, p.1 = "hashes" := by
  unfold hashes_part
  cases getPy e "hashes" <;> simp

theorem env_part_keys (e : List (String × JVal)) :
    ∀ p ∈ env_part e, p.1 = "env" := by
  unfold env_part
  cases getPy e "env" <;> simp

theorem downloads_part_keys (e : List (String × JVal)) :
    ∀ p ∈ downloads_part e, p.1 = "downloads" := by
  unfold downloads_part
  cases getVal e "downloads" <;> simp

theorem fileSize_part_keys (e : List (String × JVal)) :
    ∀ p ∈ fileSize_part e, p.1 = "fileSize" := by
  unfold fileSize_part
  cases getVal e "fileSize" <;> simp

theorem extras_part_keys (e : List (String × JVal)) :
    ∀ p ∈ extras_part e, p.1 ≠ "path" ∧ p.1 ≠ "hashes" ∧ p.1 ≠ "env" ∧
      p.1 ≠ "downloads" ∧ p.1 ≠ "fileSize" := by
  intro p hp
  have hm := (List.mem_filter.mp hp).2
  simpa [fileEntryKeys] using hm

theorem getVal_ofe_path (e : List (String × JVal)) :
    getVal (ordered_file_entry e) "path" = some (getPy e "path") := by
  unfold ordered_file_entry
  rw [getVal_cons_self]

theorem getVal_ofe_hashes (e : List (String × JVal)) :
    getVal (ordered_file_entry e) "hashes" = getVal (hashes_part e) "hashes" := by
  unfold ordered_file_entry
  rw [getVal_cons_ne _ _ _ _ (by decide), getVal_append, getVal_append, getVal_append,
    getVal_append]
  have hE : getVal (env_part e) "hashes" = none :=
    getVal_eq_none_of_keys _ _ (fun p hp => by rw [env_part_keys e p hp]; decide)
  have hD : getVal (downloads_part e) "hashes" = none :=
    getVal_eq_none_of_keys _ _ (fun p hp => by rw [downloads_part_keys e p hp]; decide)
  have hS : getVal (fileSize_part e) "hashes" = none :=
    getVal_eq_none_of_keys _ _ (fun p hp => by rw [fileSize_part_keys e p hp]; decide)
  have hX : getVal (extras_part e) "hashes" = none :=
    getVal_eq_none_of_keys _ _ (fun p hp => (extras_part_keys e p hp).2.1)
  rw [hE, hD, hS, hX]
  cases getVal (hashes_part e) "hashes" <;> rfl

theorem getVal_ofe_env (e : List (String × JVal)) :
    getVal (ordered_file_entry e) "env" = getVal (env_part e) "env" := by
  unfold ordered_file_entry
  rw [getVal_cons_ne _ _ _ _ (by decide), getVal_append, getVal_append, getVal_append,
    getVal_append]
  have hH : getVal (hashes_part e) "env" = none :=
    getVal_eq_none_of_keys _ _ (fun p hp => by rw [hashes_part_keys e p hp]; decide)
  have hD : getVal (downloads_part e) "env" = none :=
    getVal_eq_none_of_keys _ _ (fun p hp => by rw [downloads_part_keys e p hp]; decide)
  have hS : getVal (fileSize_part e) "env" = none :=
    getVal_eq_none_of_keys _ _ (fun p hp => by rw [fileSize_part_keys e p hp]; decide)
  have hX : getVal (extras_part e) "env" = none :=
    getVal_eq_none_of_keys _ _ (fun p hp => (extras_part_keys e p hp).2.2.1)
  rw [hH, hD, hS, hX]
  cases getVal (env_part e) "env" <;> rfl

theorem getVal_ofe_downloads (e : List (String × JVal)) :
    getVal (ordered_file_entry e) "downloads" = getVal (downloads_part e) "downloads" := by
  unfold ordered_file_entry
  rw [getVal_cons_ne _ _ _ _ (by decide), getVal_append, getVal_append, getVal_append,
    getVal_append]
  have hH : getVal (hashes_part e) "downloads" = none :=
    getVal_eq_none_of_keys _ _ (fun p hp => by rw [hashes_part_keys e p hp]; decide)
  have hE : getVal (env_part e) "downloads" = none :=
    getVal_eq_none_of_keys _ _ (fun p hp => by rw [env_part_keys e p hp]; decide)
  have hS : getVal (fileSize_part e) "downloads" = none :=
    getVal_eq_none_of_keys _ _ (fun p hp => by rw [fileSize_part_keys e p hp]; decide)
  have hX : getVal (extras_part e) "downloads" = none :=
    getVal_eq_none_of_keys _ _ (fun p hp => (extras_part_keys e p hp).2.2.2.1)
  rw [hH, hE, hS, hX]
  cases getVal (downloads_part e) "downloads" <;> rfl

theorem getVal_ofe_fileSize (e : List (String × JVal)) :
    getVal (ordered_file_entry e) "fileSize" = getVal (fileSize_part e) "fileSize" := by
  unfold ordered_file_entry
  rw [getVal_cons_ne _ _ _ _ (by decide), getVal_append, getVal_append, getVal_append,
    getVal_append]
  have hH : getVal (hashes_part e) "fileSize" = none :=
    getVal_eq_none_of_keys _ _ (fun p hp => by rw [hashes_part_keys e p hp]; decide)
  have hE : getVal (env_part e) "fileSize" = none :=
    getVal_eq_none_of_keys _ _ (fun p hp => by rw [env_part_keys e p hp]; decide)
  have hD : getVal (downloads_part e) "fileSize" = none :=
    getVal_eq_none_of_keys _ _ (fun p hp => by rw [downloads_part_keys e p hp]; decide)
  have hX : getVal (extras_part e) "fileSize" = none :=
    getVal_eq_none_of_keys _ _ (fun p hp => (extras_part_keys e p hp).2.2.2.2)
  rw [hH, hE, hD, hX]
  cases getVal (fileSize_part e) "fileSize" <;> rfl

theorem hashes_part_ofe (e : List (String × JVal)) :
    hashes_part (ordered_file_entry e) = hashes_part e := by
  have hv := getVal_ofe_hashes e
  have hgd : ∀ v : JVal, hashes_part e = [("hashes", v)] →
      getPy (ordered_file_entry e) "hashes" = v := by
    intro v hpe
    unfold getPy
    rw [hv, hpe, getVal_cons_self]
    rfl
  rcases hh : getPy e "hashes" with _ | b | n | s | xs | hs
  · have h1 : getPy (ordered_file_entry e) "hashes" = JVal.null := by
      unfold getPy
      rw [hv]
      simp only [hashes_part, hh]
      rfl
    simp only [hashes_part, h1, hh]
  · have h1 := hgd (JVal.bool b) (by simp only [hashes_part, hh])
    simp only [hashes_part, h1, hh]
  · have h1 := hgd (JVal.num n) (by simp only [hashes_part, hh])
    simp only [hashes_part, h1, hh]
  · have h1 := hgd (JVal.str s) (by simp only [hashes_part, hh])
    simp only [hashes_part, h1, hh]
  · have h1 := hgd (JVal.arr xs) (by simp only [hashes_part, hh])
    simp only [hashes_part, h1, hh]
  · have h1 := hgd (JVal.obj (ordered_hashes hs)) (by simp only [hashes_part, hh])
    simp only [hashes_part, h1, hh]
    unfold ordered_hashes
    rw [promote2_idem _ _ _ (by decide)]

theorem env_part_ofe (e : List (String × JVal)) :
    env_part (ordered_file_entry e) = env_part e := by
  have hv := getVal_ofe_env e
  have hgd : ∀ v : JVal, env_part e = [("env", v)] →
      getPy (ordered_file_entry e) "env" = v := by
    intro v hpe
    unfold getPy
    rw [hv, hpe, getVal_cons_self]
    rfl
  rcases hh : getPy e "env" with _ | b | n | s | xs | es
  · have h1 : getPy (ordered_file_entry e) "env" = JVal.null := by
      unfold getPy
      rw [hv]
      simp only [env_part, hh]
      rfl
    simp only [env_part, h1, hh]
  · have h1 := hgd (JVal.bool b) (by simp only [env_part, hh])
    simp only [env_part, h1, hh]
  · have h1 := hgd (JVal.num n) (by simp only [env_part, hh])
    simp only [env_part, h1, hh]
  · have h1 := hgd (JVal.str s) (by simp only [env_part, hh])
    simp only [env_part, h1, hh]
  · have h1 := hgd (JVal.arr xs) (by simp only [env_part, hh])
    simp only [env_part, h1, hh]
  · have h1 := hgd (JVal.obj (ordered_env es)) (by simp only [env_part, hh])
    simp only [env_part, h1, hh]
    unfold ordered_env
    rw [promote2_idem _ _ _ (by decide)]

theorem downloads_part_ofe (e : List (String × JVal)) :
    downloads_part (ordered_file_entry e) = downloads_part e := by
  have hv := getVal_ofe_downloads e
  cases hd : getVal e "downloads" with
  | some v =>
    have h1 : getVal (ordered_file_entry e) "downloads" = some v := by
      rw [hv]
      simp only [downloads_part, hd]
      rw [getVal_cons_self]
    simp only [downloads_part, h1, hd]
  | none =>
    have h1 : getVal (ordered_file_entry e) "downloads" = none := by
      rw [hv]
      simp only [downloads_part, hd]
      rfl
    simp only [downloads_part, h1, hd]

theorem fileSize_part_ofe (e : List (String × JVal)) :
    fileSize_part (ordered_file_entry e) = fileSize_part e := by
  have hv := getVal_ofe_fileSize e
  cases hd : getVal e "fileSize" with
  | some v =>
    have h1 : getVal (ordered_file_entry e) "fileSize" = some v := by
      rw [hv]
      simp only [fileSize_part, hd]
      rw [getVal_cons_self]
    simp only [fileSize_part, h1, hd]
  | none =>
    have h1 : getVal (ordered_file_entry e) "fileSize" = none := by
      rw [hv]
      simp only [fileSize_part, hd]
      rfl
    simp only [fileSize_part, h1, hd]

theorem extras_part_ofe (e : List (String × JVal)) :
    extras_part (ordered_file_entry e) = extras_part e := by
  have hH : (hashes_part e).filter (fun p => !(fileEntryKeys.contains p.1)) = [] := by
    rw [List.filter_eq_nil_iff]
    intro p hp
    rw [hashes_part_keys e p hp]
    decide
  have hE : (env_part e).filter (fun p => !(fileEntryKeys.contains p.1)) = [] := by
    rw [List.filter_eq_nil_iff]
    intro p hp
    rw [env_part_keys e p hp]
    decide
  have hD : (downloads_part e).filter (fun p => !(fileEntryKeys.contains p.1)) = [] := by
    rw [List.filter_eq_nil_iff]
    intro p hp
    rw [downloads_part_keys e p hp]
    decide
  have hS : (fileSize_part e).filter (fun p => !(fileEntryKeys.contains p.1)) = [] := by
    rw [List.filter_eq_nil_iff]
    intro p hp
    rw [fileSize_part_keys e p hp]
    decide
  have hX : (extras_part e).filter (fun p => !(fileEntryKeys.contains p.1)) = extras_part e := by
    rw [List.filter_eq_self]
    intro p hp
    have h5 := extras_part_keys e p hp
    simp [fileEntryKeys, h5.1, h5.2.1, h5.2.2.1, h5.2.2.2.1, h5.2.2.2.2]
  show (ordered_file_entry e).filter (fun p => !(fileEntryKeys.contains p.1)) = extras_part e
  unfold ordered_file_entry
  have hc : (!(fileEntryKeys.contains (("path", getPy e "path") : String × JVal).1)) = false := by
    simp [fileEntryKeys]
  simp only [List.filter_cons, hc, Bool.false_eq_true, if_false]
  rw [List.filter_append, List.filter_append, List.filter_append, List.filter_append]
  rw [hH, hE, hD, hS, hX]
  rfl

theorem getPy_ofe_path (e : List (String × JVal)) :
    getPy (ordered_file_entry e) "path" = getPy e "path" := by
  unfold getPy
  rw [getVal_ofe_path]
  rfl

/-- `ordered_file_entry` is a no-op on its own output. -/
theorem ordered_file_entry_idem (e : List (String × JVal)) :
    ordered_file_entry (ordered_file_entry e) = ordered_file_entry e := by
  show ("path", getPy (ordered_file_entry e) "path") ::
      (hashes_part (ordered_file_entry e) ++ env_part (ordered_file_entry e) ++
       downloads_part (ordered_file_entry e) ++ fileSize_part (ordered_file_entry e) ++
       extras_part (ordered_file_entry e)) = ordered_file_entry e
  rw [getPy_ofe_path, hashes_part_ofe, env_part_ofe, downloads_part_ofe, fileSize_part_ofe,
    extras_part_ofe]
  rfl

/-! ## Idempotence of `normalize_modrinth_index` (C2) -/

theorem normResult_cons (fs : List (String × JVal)) (fOut : JVal) :
    normCanon fs ++ [("files", fOut), ("dependencies", normDepsOut fs)] ++ normExtras fs =
      ("game", getPy fs "game") :: ("formatVersion", getPy fs "formatVersion") ::
      ("versionId", getPy fs "versionId") :: ("name", getPy fs "name") ::
      ("summary", getPy fs "summary") :: ("files", fOut) ::
      ("dependencies", normDepsOut fs) :: normExtras fs := by
  simp [normCanon]

theorem getVal_normResult_game (fs : List (String × JVal)) (fOut : JVal) :
    getVal (normCanon fs ++ [("files", fOut), ("dependencies", normDepsOut fs)] ++
      normExtras fs) "game" = some (getPy fs "game") := by
  rw [normResult_cons, getVal_cons_self]

theorem getVal_normResult_formatVersion (fs : List (String × JVal)) (fOut : JVal) :
    getVal (normCanon fs ++ [("files", fOut), ("dependencies", normDepsOut fs)] ++
      normExtras fs) "formatVersion" = some (getPy fs "formatVersion") := by
  rw [normResult_cons, getVal_cons_ne _ _ _ _ (by decide), getVal_cons_self]

theorem getVal_normResult_versionId (fs : List (String × JVal)) (fOut : JVal) :
    getVal (normCanon fs ++ [("files", fOut), ("dependencies", normDepsOut fs)] ++
      normExtras fs) "versionId" = some (getPy fs "versionId") := by
  rw [normResult_cons, getVal_cons_ne _ _ _ _ (by decide), getVal_cons_ne _ _ _ _ (by decide),
    getVal_cons_self]

theorem getVal_normResult_name (fs : List (String × JVal)) (fOut : JVal) :
    getVal (normCanon fs ++ [("files", fOut), ("dependencies", normDepsOut fs)] ++
      normExtras fs) "name" = some (getPy fs "name") := by
  rw [normResult_cons, getVal_cons_ne _ _ _ _ (by decide), getVal_cons_ne _ _ _ _ (by decide),
    getVal_cons_ne _ _ _ _ (by decide), getVal_cons_self]

theorem getVal_normResult_summary (fs : List (String × JVal)) (fOut : JVal) :
    getVal (normCanon fs ++ [("files", fOut), ("dependencies", normDepsOut fs)] ++
      normExtras fs) "summary" = some (getPy fs "summary") := by
  rw [normResult_cons, getVal_cons_ne _ _ _ _ (by decide), getVal_cons_ne _ _ _ _ (by decide),
    getVal_cons_ne _ _ _ _ (by decide), getVal_cons_ne _ _ _ _ (by decide), getVal_cons_self]

theorem getVal_normResult_files (fs : List (String × JVal)) (fOut : JVal) :
    getVal (normCanon fs ++ [("files", fOut), ("dependencies", normDepsOut fs)] ++
      normExtras fs) "files" = some fOut := by
  rw [normResult_cons, getVal_cons_ne _ _ _ _ (by decide), getVal_cons_ne _ _ _ _ (by decide),
    getVal_cons_ne _ _ _ _ (by decide), getVal_cons_ne _ _ _ _ (by decide),
    getVal_cons_ne _ _ _ _ (by decide), getVal_cons_self]

theorem getVal_normResult_deps (fs : List (String × JVal)) (fOut : JVal) :
    getVal (normCanon fs ++ [("files", fOut), ("dependencies", normDepsOut fs)] ++
      normExtras fs) "dependencies" = some (normDepsOut fs) := by
  rw [normResult_cons, getVal_cons_ne _ _ _ _ (by decide), getVal_cons_ne _ _ _ _ (by decide),
    getVal_cons_ne _ _ _ _ (by decide), getVal_cons_ne _ _ _ _ (by decide),
    getVal_cons_ne _ _ _ _ (by decide), getVal_cons_ne _ _ _ _ (by decide), getVal_cons_self]

theorem normCanon_normResult (fs : List (String × JVal)) (fOut : JVal) :
    normCanon (normCanon fs ++ [("files", fOut), ("dependencies", normDepsOut fs)] ++
      normExtras fs) = normCanon fs := by
  have h1 : getPy (normCanon fs ++ [("files", fOut), ("dependencies", normDepsOut fs)] ++
      normExtras fs) "game" = getPy fs "game" := by
    unfold getPy
    rw [getVal_normResult_game]
    rfl
  have h2 : getPy (normCanon fs ++ [("files", fOut), ("dependencies", normDepsOut fs)] ++
      normExtras fs) "formatVersion" = getPy fs "formatVersion" := by
    unfold getPy
    rw [getVal_normResult_formatVersion]
    rfl
  have h3 : getPy (normCanon fs ++ [("files", fOut), ("dependencies", normDepsOut fs)] ++
      normExtras fs) "versionId" = getPy fs "versionId" := by
    unfold getPy
    rw [getVal_normResult_versionId]
    rfl
  have h4 : getPy (normCanon fs ++ [("files", fOut), ("dependencies", normDepsOut fs)] ++
      normExtras fs) "name" = getPy fs "name" := by
    unfold getPy
    rw [getVal_normResult_name]
    rfl
  have h5 : getPy (normCanon fs ++ [("files", fOut), ("dependencies", normDepsOut fs)] ++
      normExtras fs) "summary" = getPy fs "summary" := by
    unfold getPy
    rw [getVal_normResult_summary]
    rfl
  show [("game", getPy (normCanon fs ++ [("files", fOut), ("dependencies", normDepsOut fs)] ++
      normExtras fs) "game"),
    ("formatVersion", getPy (normCanon fs ++ [("files", fOut),
      ("dependencies", normDepsOut fs)] ++ normExtras fs) "formatVersion"),
    ("versionId", getPy (normCanon fs ++ [("files", fOut), ("dependencies", normDepsOut fs)] ++
      normExtras fs) "versionId"),
    ("name", getPy (normCanon fs ++ [("files", fOut), ("dependencies", normDepsOut fs)] ++
      normExtras fs) "name"),
    ("summary", getPy (normCanon fs ++ [("files", fOut), ("dependencies", normDepsOut fs)] ++
      normExtras fs) "summary")] = normCanon fs
  rw [h1, h2, h3, h4, h5]
  rfl

theorem normDepsOut_normResult (fs : List (String × JVal)) (fOut : JVal) :
    normDepsOut (normCanon fs ++ [("files", fOut), ("dependencies", normDepsOut fs)] ++
      normExtras fs) = normDepsOut fs := by
  conv_lhs => rw [normDepsOut]
  rw [getVal_normResult_deps]
  rcases hd : (getVal fs "dependencies").getD (JVal.obj []) with _ | b | n | s | xs | d <;>
    simp only [normDepsOut, hd]
  · rfl
  · rfl
  · rfl
  · rfl
  · rfl
  · show JVal.obj (promote2 "neoforge" "minecraft" (promote2 "neoforge" "minecraft" d)) =
      JVal.obj (promote2 "neoforge" "minecraft" d)
    rw [promote2_idem _ _ _ (by decide)]

theorem normExtras_normResult (fs : List (String × JVal)) (fOut : JVal) :
    normExtras (normCanon fs ++ [("files", fOut), ("dependencies", normDepsOut fs)] ++
      normExtras fs) = normExtras fs := by
  show (normCanon fs ++ [("files", fOut), ("dependencies", normDepsOut fs)] ++
    normExtras fs).filter (fun p => !(canonicalKeys.contains p.1)) = normExtras fs
  rw [normResult_cons]
  have c1 : (!(canonicalKeys.contains (("game", getPy fs "game") : String × JVal).1)) = false := by
    simp [canonicalKeys]
  have c2 : (!(canonicalKeys.contains (("formatVersion", getPy fs "formatVersion") :
      String × JVal).1)) = false := by
    simp [canonicalKeys]
  have c3 : (!(canonicalKeys.contains (("versionId", getPy fs "versionId") :
      String × JVal).1)) = false := by
    simp [canonicalKeys]
  have c4 : (!(canonicalKeys.contains (("name", getPy fs "name") : String × JVal).1)) = false := by
    simp [canonicalKeys]
  have c5 : (!(canonicalKeys.contains (("summary", getPy fs "summary") :
      String × JVal).1)) = false := by
    simp [canonicalKeys]
  have c6 : (!(canonicalKeys.contains (("files", fOut) : String × JVal).1)) = false := by
    simp [canonicalKeys]
  have c7 : (!(canonicalKeys.contains (("dependencies", normDepsOut fs) :
      String × JVal).1)) = false := by
    simp [canonicalKeys]
  simp only [List.filter_cons, c1, c2, c3, c4, c5, c6, c7, Bool.false_eq_true, if_false]
  rw [List.filter_eq_self]
  intro p hp
  exact (List.mem_filter.mp hp).2

theorem normFilesOut_normResult (fs : List (String × JVal)) (fOut : JVal)
    (hf : normFilesOut fs = some fOut)
    (H : ∀ l, (getVal fs "files").getD (JVal.arr []) = JVal.arr l →
      ∀ e ∈ l, ∀ f, e = JVal.obj f → (getVal f "path").isSome) :
    normFilesOut (normCanon fs ++ [("files", fOut), ("dependencies", normDepsOut fs)] ++
      normExtras fs) = some fOut := by
  have hscrut : (getVal (normCanon fs ++ [("files", fOut), ("dependencies", normDepsOut fs)] ++
      normExtras fs) "files").getD (JVal.arr []) = fOut := by
    rw [getVal_normResult_files]
    rfl
  unfold normFilesOut at hf
  unfold normFilesOut
  rw [hscrut]
  rcases hv : (getVal fs "files").getD (JVal.arr []) with _ | b | n | s | l | d <;>
    rw [hv] at hf
  case null | bool | num | str | obj =>
    injection hf with hf2
    rw [← hf2]
    rfl
  case arr =>
    by_cases hall : l.all isObjB = true
    · have hif : (if l.all isObjB = true then
          some (JVal.arr (List.map normEntry (List.insertionSort fileLe l))) else none) =
          some fOut := hf
      rw [if_pos hall] at hif
      injection hif with hf2
      have hmem : ∀ y ∈ List.insertionSort fileLe l,
          ∃ f, y = JVal.obj f ∧ (getVal f "path").isSome := by
        intro y hy
        have hyl : y ∈ l := (List.mem_insertionSort fileLe).mp hy
        have hobj : isObjB y = true := (List.all_eq_true.mp hall) y hyl
        rcases y with _ | _ | _ | _ | _ | f
        case obj => exact ⟨f, rfl, H l hv _ hyl f rfl⟩
        all_goals cases hobj
      have hkey : ∀ y ∈ List.insertionSort fileLe l,
          fileSortKey (normEntry y) = fileSortKey y := by
        intro y hy
        obtain ⟨f, rfl, hp⟩ := hmem y hy
        show fileSortKey (JVal.obj (ordered_file_entry f)) = fileSortKey (JVal.obj f)
        simp only [fileSortKey]
        rw [getVal_ofe_path]
        obtain ⟨v, hv2⟩ := Option.isSome_iff_exists.mp hp
        rw [hv2]
        unfold getPy
        rw [hv2]
        rfl
      have hsorted : List.Sorted fileLe ((List.insertionSort fileLe l).map normEntry) := by
        have hs : List.Sorted fileLe (List.insertionSort fileLe l) :=
          List.sorted_insertionSort fileLe l
        exact List.pairwise_map.mpr (hs.imp_of_mem (fun ha hb hr => by
          unfold fileLe at hr ⊢
          rw [hkey _ ha, hkey _ hb]
          exact hr))
      have hall2 : ((List.insertionSort fileLe l).map normEntry).all isObjB = true := by
        apply List.all_eq_true.mpr
        intro x hx
        obtain ⟨y, hy, rfl⟩ := List.mem_map.mp hx
        obtain ⟨f, rfl, _⟩ := hmem y hy
        rfl
      have hmap2 : ((List.insertionSort fileLe l).map normEntry).map normEntry =
          (List.insertionSort fileLe l).map normEntry := by
        rw [List.map_map]
        apply List.map_congr_left
        intro y hy
        obtain ⟨f, rfl, _⟩ := hmem y hy
        show JVal.obj (ordered_file_entry (ordered_file_entry f)) =
          JVal.obj (ordered_file_entry f)
        rw [ordered_file_entry_idem]
      rw [← hf2]
      show (if (List.map normEntry (List.insertionSort fileLe l)).all isObjB = true then
          some (JVal.arr (List.map normEntry (List.insertionSort fileLe
            (List.map normEntry (List.insertionSort fileLe l))))) else none) =
        some (JVal.arr (List.map normEntry (List.insertionSort fileLe l)))
      rw [if_pos hall2, hsorted.insertionSort_eq, hmap2]
    · have hif : (if l.all isObjB = true then
          some (JVal.arr (List.map normEntry (List.insertionSort fileLe l))) else none) =
          some fOut := hf
      rw [if_neg hall] at hif
      cases hif

/-- C2 (amended): normalization is idempotent on every manifest whose file
entries all carry a `path` key — `normalize(normalize(m)) == normalize(m)`
(including the raising cases, where both sides raise). Entries lacking
`path` are excluded: their sort key changes from `""` to `"None"` once the
null path is materialized, which can reorder the files list on the second
pass. -/
theorem normalize_modrinth_index_idem_of_paths (fs : List (String × JVal))
    (H : ∀ l, (getVal fs "files").getD (JVal.arr []) = JVal.arr l →
      ∀ e ∈ l, ∀ f, e = JVal.obj f → (getVal f "path").isSome) :
    (normalize_modrinth_index (JVal.obj fs)).bind normalize_modrinth_index =
      normalize_modrinth_index (JVal.obj fs) := by
  cases hf : normFilesOut fs with
  | none => simp [normalize_modrinth_index, hf]
  | some fOut =>
    have h1 : normalize_modrinth_index (JVal.obj fs) =
        some (JVal.obj (normCanon fs ++ [("files", fOut), ("dependencies", normDepsOut fs)] ++
          normExtras fs)) := by
      simp [normalize_modrinth_index, hf]
    rw [h1]
    show normalize_modrinth_index (JVal.obj (normCanon fs ++
        [("files", fOut), ("dependencies", normDepsOut fs)] ++ normExtras fs)) =
      some (JVal.obj (normCanon fs ++ [("files", fOut), ("dependencies", normDepsOut fs)] ++
        normExtras fs))
    simp only [normalize_modrinth_index, normFilesOut_normResult fs fOut hf H]
    rw [normCanon_normResult, normDepsOut_normResult, normExtras_normResult]

/-- Counterexample to C2 as stated: for the manifest
`{"files": [{"path": "A"}, {}]}` normalization is not idempotent. The first
pass sorts the path-less entry first (key `""`) and materializes
`"path": null` in it; on the second pass that entry's sort key is `"None"`,
which sorts after `"A"`, so the two file entries swap places. -/
theorem normalize_not_idempotent :
    (normalize_modrinth_index (JVal.obj
        [("files", JVal.arr [JVal.obj [("path", JVal.str "A")], JVal.obj []])])).bind
      normalize_modrinth_index ≠
    normalize_modrinth_index (JVal.obj
        [("files", JVal.arr [JVal.obj [("path", JVal.str "A")], JVal.obj []])]) := by
  intro h
  have hL : (fun o : Option JVal =>
      match o with
      | some (JVal.obj rfs) =>
        match getVal rfs "files" with
        | some (JVal.arr (JVal.obj f :: _)) => getVal f "path"
        | _ => none
      | _ => none)
      ((normalize_modrinth_index (JVal.obj
        [("files", JVal.arr [JVal.obj [("path", JVal.str "A")], JVal.obj []])])).bind
          normalize_modrinth_index) = some (JVal.str "A") := rfl
  have hR : (fun o : Option JVal =>
      match o with
      | some (JVal.obj rfs) =>
        match getVal rfs "files" with
        | some (JVal.arr (JVal.obj f :: _)) => getVal f "path"
        | _ => none
      | _ => none)
      (normalize_modrinth_index (JVal.obj
        [("files", JVal.arr [JVal.obj [("path", JVal.str "A")], JVal.obj []])])) =
      some JVal.null := rfl
  rw [h, hR] at hL
  injection hL with h3
  exact JVal.noConfusion h3

/-- Witness for the amended C2, at a manifest with one complete file
entry. -/
theorem normalize_modrinth_index_idem_of_paths_witness :
    (normalize_modrinth_index (JVal.obj
        [("files", JVal.arr [JVal.obj [("path", JVal.str "A")]])])).bind
      normalize_modrinth_index =
    normalize_modrinth_index (JVal.obj
        [("files", JVal.arr [JVal.obj [("path", JVal.str "A")]])]) :=
  normalize_modrinth_index_idem_of_paths
    [("files", JVal.arr [JVal.obj [("path", JVal.str "A")]])]
    (by
      intro l hl e he f hfeq
      injection hl with hl2
      subst hl2
      rcases List.mem_singleton.mp he with rfl
      injection hfeq with h3
      subst h3
      rfl)

/-! ## Repair-step resolution lemmas (C4, C5) -/

/-- When the group pins exactly one version id whose record is cached (a
nonempty dict), the repair step reduces to entry construction and
application. -/
theorem repair_step_resolved (ctx : RepairCtx) (st : RepairState) (dep_pid : String)
    (issues : List RequiredDepIssue) (tvid : String) (tf : List (String × JVal))
    (hvids : distinct_required_vids issues = [tvid])
    (hcache : lookup st.cache tvid = some (JVal.obj tf))
    (htf : tf ≠ []) (htvid : tvid ≠ "") :
    repair_step ctx st dep_pid issues = repair_after_entry ctx dep_pid tvid tf st := by
  have h1 : (pyTruthy (JVal.obj tf) && (tvid != "")) = true := by
    simp [pyTruthy, htf, htvid]
  unfold repair_step
  rw [hvids]
  rw [if_neg (by simp)]
  show (match lookup st.cache tvid with
    | some tobj => repair_check_resolved ctx dep_pid (some tobj) (some tvid) st
    | none =>
      match ctx.fetch_version tvid with
      | FetchOutcome.decodeError _ => none
      | FetchOutcome.netError e =>
        some { st with
          calls := st.calls ++ ["version/" ++ tvid],
          skipped := st.skipped ++
            [dep_pid ++ ": cannot fetch required version " ++ tvid ++ " (" ++ e ++ ")"] }
      | FetchOutcome.ok v =>
        if isObjB v then
          repair_check_resolved ctx dep_pid (some v) (some tvid)
            { st with cache := setKey st.cache tvid v, calls := st.calls ++ ["version/" ++ tvid] }
        else
          repair_check_resolved ctx dep_pid none (some tvid)
            { st with calls := st.calls ++ ["version/" ++ tvid] }) =
    repair_after_entry ctx dep_pid tvid tf st
  rw [hcache]
  show repair_check_resolved ctx dep_pid (some (JVal.obj tf)) (some tvid) st =
    repair_after_entry ctx dep_pid tvid tf st
  unfold repair_check_resolved
  show (if (pyTruthy (JVal.obj tf) && (tvid != "")) = true then
      match JVal.obj tf with
      | JVal.obj tf2 => repair_after_entry ctx dep_pid tvid tf2 st
      | _ => none
    else
      some { st with skipped := st.skipped ++ [dep_pid ++ ": no target version resolved"] }) =
    repair_after_entry ctx dep_pid tvid tf st
  rw [if_pos h1]

/-- When the target package has installed entries, the application phase
runs downgrade protection against the lowest-index entry, then replaces. -/
theorem repair_after_entry_existing (ctx : RepairCtx) (st : RepairState) (dep_pid : String)
    (tvid : String) (tf ne : List (String × JVal)) (entries : List ModFile)
    (first : ModFile) (restE : List ModFile)
    (hentry : index_file_from_version (JVal.obj tf) = Except.ok (some ne))
    (hex : lookup ctx.project_to_entries dep_pid = some entries)
    (hsorted : List.insertionSort (fun a b : ModFile => a.file_index ≤ b.file_index) entries =
      first :: restE) :
    repair_after_entry ctx dep_pid tvid tf st =
      repair_downgrade_then_apply ctx dep_pid tvid tf ne first st := by
  unfold repair_after_entry
  rw [hentry]
  show (match List.insertionSort (fun a b : ModFile => a.file_index ≤ b.file_index)
      ((lookup ctx.project_to_entries dep_pid).getD []) with
    | [] =>
      some { st with
        files := st.files ++ [JVal.obj ne],
        changes := st.changes ++
          ["added " ++ dep_pid ++ ": " ++ pyStr (getPy ne "path") ++ " (version " ++ tvid ++ ")"] }
    | first :: _ => repair_downgrade_then_apply ctx dep_pid tvid tf ne first st) =
    repair_downgrade_then_apply ctx dep_pid tvid tf ne first st
  rw [hex]
  show (match List.insertionSort (fun a b : ModFile => a.file_index ≤ b.file_index) entries with
    | [] =>
      some { st with
        files := st.files ++ [JVal.obj ne],
        changes := st.changes ++
          ["added " ++ dep_pid ++ ": " ++ pyStr (getPy ne "path") ++ " (version " ++ tvid ++ ")"] }
    | first :: _ => repair_downgrade_then_apply ctx dep_pid tvid tf ne first st) =
    repair_downgrade_then_apply ctx dep_pid tvid tf ne first st
  rw [hsorted]

/-- When the target package has no installed entry, the new entry is
appended. -/
theorem repair_after_entry_append (ctx : RepairCtx) (st : RepairState) (dep_pid : String)
    (tvid : String) (tf ne : List (String × JVal))
    (hentry : index_file_from_version (JVal.obj tf) = Except.ok (some ne))
    (hex : (lookup ctx.project_to_entries dep_pid).getD [] = []) :
    repair_after_entry ctx dep_pid tvid tf st =
      some { st with
        files := st.files ++ [JVal.obj ne],
        changes := st.changes ++
          ["added " ++ dep_pid ++ ": " ++ pyStr (getPy ne "path") ++
           " (version " ++ tvid ++ ")"] } := by
  unfold repair_after_entry
  rw [hentry]
  show (match List.insertionSort (fun a b : ModFile => a.file_index ≤ b.file_index)
      ((lookup ctx.project_to_entries dep_pid).getD []) with
    | [] =>
      some { st with
        files := st.files ++ [JVal.obj ne],
        changes := st.changes ++
          ["added " ++ dep_pid ++ ": " ++ pyStr (getPy ne "path") ++ " (version " ++ tvid ++ ")"] }
    | first :: _ => repair_downgrade_then_apply ctx dep_pid tvid tf ne first st) = _
  rw [hex]
  rfl

/-- With the override flag set, downgrade protection is bypassed entirely
and the replacement proceeds. -/
theorem repair_downgrade_apply_of_allow (ctx : RepairCtx) (st : RepairState)
    (dep_pid tvid : String) (tf ne : List (String × JVal)) (first : ModFile)
    (hallow : ctx.allow_downgrade = true) :
    repair_downgrade_then_apply ctx dep_pid tvid tf ne first st =
      repair_apply dep_pid tvid ne first st := by
  unfold repair_downgrade_then_apply
  rw [if_neg (by rw [hallow]; simp)]

/-- With the override flag unset, a cached installed record whose
`date_published` string is lexicographically later than the target's blocks
the repair with a downgrade diagnostic. -/
theorem repair_downgrade_blocked (ctx : RepairCtx) (st : RepairState)
    (dep_pid tvid : String) (tf ne : List (String × JVal)) (first : ModFile)
    (cf : List (String × JVal)) (cd td : String)
    (hdiff : first.version_id ≠ tvid) (hallow : ctx.allow_downgrade = false)
    (hcur : lookup st.cache first.version_id = some (JVal.obj cf))
    (hcd : getPy cf "date_published" = JVal.str cd)
    (htd : getPy tf "date_published" = JVal.str td)
    (hlt : strLt td cd) :
    repair_downgrade_then_apply ctx dep_pid tvid tf ne first st =
      some { st with skipped := st.skipped ++
        [dep_pid ++ ": downgrade blocked (" ++ first.version_id ++ " -> " ++ tvid ++
         "); use --allow-downgrade-deps to force"] } := by
  unfold repair_downgrade_then_apply
  rw [if_pos (by rw [hallow]; simp [hdiff])]
  rw [hcur]
  show (match (some (some (JVal.obj cf), st) : Option (Option JVal × RepairState)) with
    | none => none
    | some (current_obj, st2) =>
      let current_date : Option JVal :=
        match current_obj with
        | some (JVal.obj cf) => some (getPy cf "date_published")
        | _ => none
      let target_date := getPy tf "date_published"
      let blocked :=
        match current_date, target_date with
        | some (JVal.str cd), JVal.str td => decide (strLt td cd)
        | _, _ => false
      if blocked then
        some { st2 with skipped := st2.skipped ++
          [dep_pid ++ ": downgrade blocked (" ++ first.version_id ++ " -> " ++ tvid ++
           "); use --allow-downgrade-deps to force"] }
      else
        repair_apply dep_pid tvid ne first st2) = _
  show (if (match (some (getPy cf "date_published") : Option JVal),
        getPy tf "date_published" with
      | some (JVal.str cd), JVal.str td => decide (strLt td cd)
      | _, _ => false) = true then
      some { st with skipped := st.skipped ++
        [dep_pid ++ ": downgrade blocked (" ++ first.version_id ++ " -> " ++ tvid ++
         "); use --allow-downgrade-deps to force"] }
    else
      repair_apply dep_pid tvid ne first st) = _
  rw [hcd, htd]
  rw [if_pos (by simpa using hlt)]

/-- With the override flag unset but the timestamp comparison degrading to
"allow" (the blocked test computing `false`), the replacement proceeds. -/
theorem repair_downgrade_not_blocked (ctx : RepairCtx) (st : RepairState)
    (dep_pid tvid : String) (tf ne : List (String × JVal)) (first : ModFile)
    (cf : List (String × JVal))
    (hdiff : first.version_id ≠ tvid) (hallow : ctx.allow_downgrade = false)
    (hcur : lookup st.cache first.version_id = some (JVal.obj cf))
    (hnb : (match (some (getPy cf "date_published") : Option JVal),
        getPy tf "date_published" with
      | some (JVal.str cd), JVal.str td => decide (strLt td cd)
      | _, _ => false) = false) :
    repair_downgrade_then_apply ctx dep_pid tvid tf ne first st =
      repair_apply dep_pid tvid ne first st := by
  unfold repair_downgrade_then_apply
  rw [if_pos (by rw [hallow]; simp [hdiff])]
  rw [hcur]
  show (if (match (some (getPy cf "date_published") : Option JVal),
        getPy tf "date_published" with
      | some (JVal.str cd), JVal.str td => decide (strLt td cd)
      | _, _ => false) = true then
      some { st with skipped := st.skipped ++
        [dep_pid ++ ": downgrade blocked (" ++ first.version_id ++ " -> " ++ tvid ++
         "); use --allow-downgrade-deps to force"] }
    else
      repair_apply dep_pid tvid ne first st) = _
  rw [hnb]
  simp

/-- The in-place replacement at a valid index holding a dict entry. -/
theorem repair_apply_eq (st : RepairState) (dep_pid tvid : String)
    (ne : List (String × JVal)) (first : ModFile) (oldf : List (String × JVal))
    (hold : st.files[first.file_index]? = some (JVal.obj oldf)) :
    repair_apply dep_pid tvid ne first st =
      some { st with
        files := st.files.set first.file_index (JVal.obj ne),
        changes := st.changes ++
          ["updated " ++ dep_pid ++ ": " ++
           (match getVal oldf "path" with
            | some v => pyStr v
            | none => "mods/unknown-" ++ dep_pid ++ ".jar") ++ " -> " ++
           pyStr (getPy ne "path") ++ " (version " ++ tvid ++ ")"] } := by
  unfold repair_apply
  rw [hold]

/-! ## Claim C4: downgrade protection -/

/-- C4: for a repair target already installed at a different version (the
lowest-index installed entry `first`, whose record is cached as `cf`):
with the override flag unset and both `date_published` strings present, a
lexicographically earlier target timestamp skips the package with a
downgrade diagnostic; with the override flag set, or with either timestamp
not a string, the replacement proceeds. -/
theorem downgrade_protection (ctx : RepairCtx) (st : RepairState) (dep_pid : String)
    (issues : List RequiredDepIssue) (tvid : String)
    (tf ne cf : List (String × JVal)) (entries restE : List ModFile) (first : ModFile)
    (hvids : distinct_required_vids issues = [tvid])
    (hcache : lookup st.cache tvid = some (JVal.obj tf))
    (htf : tf ≠ []) (htvid : tvid ≠ "")
    (hentry : index_file_from_version (JVal.obj tf) = Except.ok (some ne))
    (hex : lookup ctx.project_to_entries dep_pid = some entries)
    (hsorted : List.insertionSort (fun a b : ModFile => a.file_index ≤ b.file_index) entries =
      first :: restE)
    (hdiff : first.version_id ≠ tvid)
    (hcur : lookup st.cache first.version_id = some (JVal.obj cf)) :
    (∀ cd td, ctx.allow_downgrade = false → getPy cf "date_published" = JVal.str cd →
      getPy tf "date_published" = JVal.str td → strLt td cd →
      repair_step ctx st dep_pid issues =
        some { st with skipped := st.skipped ++
          [dep_pid ++ ": downgrade blocked (" ++ first.version_id ++ " -> " ++ tvid ++
           "); use --allow-downgrade-deps to force"] }) ∧
    (ctx.allow_downgrade = true → ∀ oldf,
      st.files[first.file_index]? = some (JVal.obj oldf) →
      repair_step ctx st dep_pid issues =
        some { st with
          files := st.files.set first.file_index (JVal.obj ne),
          changes := st.changes ++
            ["updated " ++ dep_pid ++ ": " ++
             (match getVal oldf "path" with
              | some v => pyStr v
              | none => "mods/unknown-" ++ dep_pid ++ ".jar") ++ " -> " ++
             pyStr (getPy ne "path") ++ " (version " ++ tvid ++ ")"] }) ∧
    (ctx.allow_downgrade = false →
      ((∀ s, getPy cf "date_published" ≠ JVal.str s) ∨
       (∀ s, getPy tf "date_published" ≠ JVal.str s)) →
      ∀ oldf, st.files[first.file_index]? = some (JVal.obj oldf) →
      repair_step ctx st dep_pid issues =
        some { st with
          files := st.files.set first.file_index (JVal.obj ne),
          changes := st.changes ++
            ["updated " ++ dep_pid ++ ": " ++
             (match getVal oldf "path" with
              | some v => pyStr v
              | none => "mods/unknown-" ++ dep_pid ++ ".jar") ++ " -> " ++
             pyStr (getPy ne "path") ++ " (version " ++ tvid ++ ")"] }) := by
  have hres : repair_step ctx st dep_pid issues = repair_after_entry ctx dep_pid tvid tf st :=
    repair_step_resolved ctx st dep_pid issues tvid tf hvids hcache htf htvid
  have hexist : repair_after_entry ctx dep_pid tvid tf st =
      repair_downgrade_then_apply ctx dep_pid tvid tf ne first st :=
    repair_after_entry_existing ctx st dep_pid tvid tf ne entries first restE hentry hex hsorted
  refine ⟨?_, ?_, ?_⟩
  · intro cd td hallow hcd htd hlt
    rw [hres, hexist,
      repair_downgrade_blocked ctx st dep_pid tvid tf ne first cf cd td hdiff hallow hcur
        hcd htd hlt]
  · intro hallow oldf hold
    rw [hres, hexist, repair_downgrade_apply_of_allow ctx st dep_pid tvid tf ne first hallow,
      repair_apply_eq st dep_pid tvid ne first oldf hold]
  · intro hallow hmiss oldf hold
    have hnb : (match (some (getPy cf "date_published") : Option JVal),
        getPy tf "date_published" with
      | some (JVal.str cd), JVal.str td => decide (strLt td cd)
      | _, _ => false) = false := by
      rcases hmiss with hmc | hmt
      · rcases hc2 : getPy cf "date_published" with _ | b | n | s | xs | o <;>
          rcases ht2 : getPy tf "date_published" with _ | b2 | n2 | s2 | xs2 | o2 <;>
          first
            | rfl
            | exact absurd hc2 (hmc _)
      · rcases hc2 : getPy cf "date_published" with _ | b | n | s | xs | o <;>
          rcases ht2 : getPy tf "date_published" with _ | b2 | n2 | s2 | xs2 | o2 <;>
          first
            | rfl
            | exact absurd ht2 (hmt _)
    rw [hres, hexist,
      repair_downgrade_not_blocked ctx st dep_pid tvid tf ne first cf hdiff hallow hcur hnb,
      repair_apply_eq st dep_pid tvid ne first oldf hold]

/-- Witness for C4: package `P` installed at `vOld` (published 2024-06-01),
required pinned target `vNew` (published 2024-01-01), both records cached;
with the override unset the blocked case fires, and the proceed cases are
stated for the same context. -/
theorem downgrade_protection_witness :
    (∀ cd td, ctxDown.allow_downgrade = false →
      getPy cfOld "date_published" = JVal.str cd →
      getPy tfNew "date_published" = JVal.str td →
      strLt td cd →
      repair_step ctxDown stOld "P" [issueNew] =
        some { stOld with skipped := stOld.skipped ++
          ["P" ++ ": downgrade blocked (" ++ firstOld.version_id ++ " -> " ++ "vNew" ++
           "); use --allow-downgrade-deps to force"] }) ∧
    (ctxDown.allow_downgrade = true → ∀ oldf,
      stOld.files[firstOld.file_index]? = some (JVal.obj oldf) →
      repair_step ctxDown stOld "P" [issueNew] =
        some { stOld with
          files := stOld.files.set firstOld.file_index (JVal.obj neNew),
          changes := stOld.changes ++
            ["updated " ++ "P" ++ ": " ++
             (match getVal oldf "path" with
              | some v => pyStr v
              | none => "mods/unknown-" ++ "P" ++ ".jar") ++ " -> " ++
             pyStr (getPy neNew "path") ++ " (version " ++ "vNew" ++ ")"] }) ∧
    (ctxDown.allow_downgrade = false →
      ((∀ s, getPy cfOld "date_published" ≠ JVal.str s) ∨
       (∀ s, getPy tfNew "date_published" ≠ JVal.str s)) →
      ∀ oldf, stOld.files[firstOld.file_index]? = some (JVal.obj oldf) →
      repair_step ctxDown stOld "P" [issueNew] =
        some { stOld with
          files := stOld.files.set firstOld.file_index (JVal.obj neNew),
          changes := stOld.changes ++
            ["updated " ++ "P" ++ ": " ++
             (match getVal oldf "path" with
              | some v => pyStr v
              | none => "mods/unknown-" ++ "P" ++ ".jar") ++ " -> " ++
             pyStr (getPy neNew "path") ++ " (version " ++ "vNew" ++ ")"] }) :=
  downgrade_protection ctxDown stOld "P" [issueNew] "vNew" tfNew neNew cfOld
    [firstOld] [] firstOld
    (by rfl) (by rfl) (by exact List.cons_ne_nil _ _) (by decide) (by rfl) (by rfl)
    (by rfl) (by decide) (by rfl)

/-! ## Claim C5: replace in place at the lowest index, or append -/

/-- C5: when a repair is applied for a resolved target: if the package has
installed entries, the replacement is written in place at the lowest
manifest index among them (`first`, the head of the index-sorted entries),
the files list keeps its length, and every other position is unchanged; if
the package has no installed entry, the new entry is appended and all
existing positions are unchanged. -/
theorem repair_replace_or_append (ctx : RepairCtx) (st : RepairState) (dep_pid : String)
    (issues : List RequiredDepIssue) (tvid : String) (tf ne : List (String × JVal))
    (hvids : distinct_required_vids issues = [tvid])
    (hcache : lookup st.cache tvid = some (JVal.obj tf))
    (htf : tf ≠ []) (htvid : tvid ≠ "")
    (hentry : index_file_from_version (JVal.obj tf) = Except.ok (some ne)) :
    (∀ entries first restE oldf,
      lookup ctx.project_to_entries dep_pid = some entries →
      List.insertionSort (fun a b : ModFile => a.file_index ≤ b.file_index) entries =
        first :: restE →
      ctx.allow_downgrade = true →
      st.files[first.file_index]? = some (JVal.obj oldf) →
      (∀ m ∈ entries, first.file_index ≤ m.file_index) ∧
      repair_step ctx st dep_pid issues =
        some { st with
          files := st.files.set first.file_index (JVal.obj ne),
          changes := st.changes ++
            ["updated " ++ dep_pid ++ ": " ++
             (match getVal oldf "path" with
              | some v => pyStr v
              | none => "mods/unknown-" ++ dep_pid ++ ".jar") ++ " -> " ++
             pyStr (getPy ne "path") ++ " (version " ++ tvid ++ ")"] } ∧
      (st.files.set first.file_index (JVal.obj ne)).length = st.files.length ∧
      (∀ j, j ≠ first.file_index →
        (st.files.set first.file_index (JVal.obj ne))[j]? = st.files[j]?)) ∧
    ((lookup ctx.project_to_entries dep_pid).getD [] = [] →
      repair_step ctx st dep_pid issues =
        some { st with
          files := st.files ++ [JVal.obj ne],
          changes := st.changes ++
            ["added " ++ dep_pid ++ ": " ++ pyStr (getPy ne "path") ++
             " (version " ++ tvid ++ ")"] } ∧
      (∀ j, j < st.files.length → (st.files ++ [JVal.obj ne])[j]? = st.files[j]?)) := by
  have hres : repair_step ctx st dep_pid issues = repair_after_entry ctx dep_pid tvid tf st :=
    repair_step_resolved ctx st dep_pid issues tvid tf hvids hcache htf htvid
  constructor
  · intro entries first restE oldf hex hsorted hallow hold
    refine ⟨?_, ?_, ?_, ?_⟩
    · intro m hm
      have hs := List.sorted_insertionSort
        (fun a b : ModFile => a.file_index ≤ b.file_index) entries
      rw [hsorted] at hs
      have hm2 : m ∈ first :: restE := by
        rw [← hsorted]
        exact (List.mem_insertionSort _).mpr hm
      rcases List.mem_cons.mp hm2 with rfl | hm3
      · exact Nat.le_refl _
      · exact List.rel_of_sorted_cons hs m hm3
    · rw [hres,
        repair_after_entry_existing ctx st dep_pid tvid tf ne entries first restE hentry
          hex hsorted,
        repair_downgrade_apply_of_allow ctx st dep_pid tvid tf ne first hallow,
        repair_apply_eq st dep_pid tvid ne first oldf hold]
    · exact List.length_set st.files first.file_index (JVal.obj ne)
    · intro j hj
      exact List.getElem?_set_ne (Ne.symm hj)
  · intro hexnil
    constructor
    · rw [hres, repair_after_entry_append ctx st dep_pid tvid tf ne hentry hexnil]
    · intro j hj
      rw [List.getElem?_append, if_pos hj]

/-- Witness for C5, with the override flag set so the replacement branch
fires for `P` installed at index 0; the append branch is stated for the
same context (whose `P` group is nonempty, so its premise is false). -/
theorem repair_replace_or_append_witness :
    (∀ entries first restE oldf,
      lookup ctxAllow.project_to_entries "P" = some entries →
      List.insertionSort (fun a b : ModFile => a.file_index ≤ b.file_index) entries =
        first :: restE →
      ctxAllow.allow_downgrade = true →
      stOld.files[first.file_index]? = some (JVal.obj oldf) →
      (∀ m ∈ entries, first.file_index ≤ m.file_index) ∧
      repair_step ctxAllow stOld "P" [issueNew] =
        some { stOld with
          files := stOld.files.set first.file_index (JVal.obj neNew),
          changes := stOld.changes ++
            ["updated " ++ "P" ++ ": " ++
             (match getVal oldf "path" with
              | some v => pyStr v
              | none => "mods/unknown-" ++ "P" ++ ".jar") ++ " -> " ++
             pyStr (getPy neNew "path") ++ " (version " ++ "vNew" ++ ")"] } ∧
      (stOld.files.set first.file_index (JVal.obj neNew)).length = stOld.files.length ∧
      (∀ j, j ≠ first.file_index →
        (stOld.files.set first.file_index (JVal.obj neNew))[j]? = stOld.files[j]?)) ∧
    ((lookup ctxAllow.project_to_entries "P").getD [] = [] →
      repair_step ctxAllow stOld "P" [issueNew] =
        some { stOld with
          files := stOld.files ++ [JVal.obj neNew],
          changes := stOld.changes ++
            ["added " ++ "P" ++ ": " ++ pyStr (getPy neNew "path") ++
             " (version " ++ "vNew" ++ ")"] } ∧
      (∀ j, j < stOld.files.length → (stOld.files ++ [JVal.obj neNew])[j]? = stOld.files[j]?)) :=
  repair_replace_or_append ctxAllow stOld "P" [issueNew] "vNew" tfNew neNew
    (by rfl) (by rfl) (by exact List.cons_ne_nil _ _) (by decide) (by rfl)

/-! ## Claim C8: malformed manifests abort before any write -/

/-- Counterexample to C8 as stated: a manifest whose `files` is an (empty)
object does not fail with any malformed-manifest error — it terminates in
exactly the same "No mods with Modrinth version URLs found" `SystemExit(1)`
state as a well-formed manifest with an empty files list. `load_json_file`
performs no root/files type validation at all. -/
theorem malformed_files_no_distinct_error :
    main_early (JVal.obj [("files", JVal.obj [])]) = EarlyOutcome.exitNoMods ∧
    main_early (JVal.obj [("files", JVal.arr [])]) = EarlyOutcome.exitNoMods :=
  ⟨rfl, rfl⟩

/-- C8 (amended): when the root is not a JSON object, or `files` is present
but not a list, the run never reaches the network/repair phase, so nothing
is ever written: it aborts with an uncaught type error (non-object roots;
most non-list files values) or terminates through the "no installed
entries" exit path (an empty-string or empty-object files value). There is
no dedicated MalformedManifest check. -/
theorem malformed_manifest_aborts (j : JVal)
    (h : (∀ fs, j ≠ JVal.obj fs) ∨
      (∃ fs v, j = JVal.obj fs ∧ getVal fs "files" = some v ∧ ∀ l, v ≠ JVal.arr l)) :
    main_early j = EarlyOutcome.uncaughtError ∨ main_early j = EarlyOutcome.exitNoMods := by
  rcases h with hroot | ⟨fs, v, rfl, hv, hnl⟩
  · rcases j with _ | b | n | s | xs | fs
    case obj => exact absurd rfl (hroot fs)
    all_goals exact Or.inl rfl
  · have hged : (getVal fs "files").getD (JVal.arr []) = v := by
      rw [hv]
      rfl
    show (match (match pyEnumerate ((getVal fs "files").getD (JVal.arr [])) with
        | none => none
        | some items => parse_files_go 0 items) with
      | none => EarlyOutcome.uncaughtError
      | some [] => EarlyOutcome.exitNoMods
      | some mods => EarlyOutcome.proceeds mods) = EarlyOutcome.uncaughtError ∨
      (match (match pyEnumerate ((getVal fs "files").getD (JVal.arr [])) with
        | none => none
        | some items => parse_files_go 0 items) with
      | none => EarlyOutcome.uncaughtError
      | some [] => EarlyOutcome.exitNoMods
      | some mods => EarlyOutcome.proceeds mods) = EarlyOutcome.exitNoMods
    rw [hged]
    rcases v with _ | b | n | s | xs | d
    · exact Or.inl rfl
    · exact Or.inl rfl
    · exact Or.inl rfl
    · rcases hsl : s.toList with _ | ⟨c, cs⟩
      · refine Or.inr ?_
        have hsl2 : s.data = ([] : List Char) := hsl
        simp [pyEnumerate, hsl2, parse_files_go]
      · refine Or.inl ?_
        have hsl2 : s.data = c :: cs := hsl
        simp [pyEnumerate, hsl2, parse_files_go, parse_entry]
    · exact absurd rfl (hnl xs)
    · rcases d with _ | ⟨p, ps⟩
      · exact Or.inr rfl
      · exact Or.inl rfl

/-- Witness for the amended C8, at a manifest whose `files` is a nonempty
string (the iteration yields characters and `entry.get` raises). -/
theorem malformed_manifest_aborts_witness :
    main_early (JVal.obj [("files", JVal.str "x")]) = EarlyOutcome.uncaughtError ∨
    main_early (JVal.obj [("files", JVal.str "x")]) = EarlyOutcome.exitNoMods :=
  malformed_manifest_aborts (JVal.obj [("files", JVal.str "x")])
    (Or.inr ⟨[("files", JVal.str "x")], JVal.str "x", rfl, rfl,
      fun l h => JVal.noConfusion h⟩)

/-! ## Claim C9: batched version lookup tolerates network failure -/

theorem lookup_append {α : Type} (xs ys : List (String × α)) (k : String) :
    lookup (xs ++ ys) k = (lookup xs k).or (lookup ys k) := by
  cases hx : List.find? (fun p => p.1 == k) xs <;>
    simp [lookup, List.find?_append, hx, Option.or]

theorem lookup_setKey_self {α : Type} (m : List (String × α)) (k : String) (v : α) :
    lookup (setKey m k v) k = some v := by
  unfold setKey
  by_cases h : (List.find? (fun p => p.1 == k) m).isSome
  · rw [if_pos h]
    induction m with
    | nil => simp [List.find?] at h
    | cons p ps ih =>
      by_cases hp : p.1 = k
      · simp [lookup, List.find?_cons, hp]
      · have h2 : (List.find? (fun q : String × α => q.1 == k) ps).isSome := by
          simpa [List.find?_cons, hp] using h
        have := ih h2
        simpa [lookup, List.find?_cons, hp] using this
  · rw [if_neg h]
    rw [lookup_append]
    have hnone : lookup m k = none := by
      unfold lookup
      cases hf : List.find? (fun p => p.1 == k) m with
      | some p => rw [hf] at h; simp at h
      | none => rfl
    rw [hnone]
    simp [lookup, List.find?_cons, Option.or]

theorem lookup_cons_self {α : Type} (k : String) (v : α) (rest : List (String × α)) :
    lookup ((k, v) :: rest) k = some v := by
  simp [lookup, List.find?_cons]

theorem lookup_cons_ne {α : Type} (k q : String) (v : α) (rest : List (String × α))
    (h : ¬ k = q) : lookup ((k, v) :: rest) q = lookup rest q := by
  simp [lookup, List.find?_cons, h]

theorem lookup_map_update_ne {α : Type} (m : List (String × α)) (k k' : String) (v : α)
    (hk : ¬ k' = k) :
    lookup (m.map (fun p => if p.1 == k then (p.1, v) else p)) k' = lookup m k' := by
  induction m with
  | nil => rfl
  | cons p ps ih =>
    rcases p with ⟨a, b⟩
    rw [List.map_cons]
    by_cases hpk : a = k
    · subst hpk
      have h1 : ((a, b).1 == a) = true := by simp
      rw [if_pos h1]
      have hna : ¬ a = k' := fun e => hk e.symm
      rw [lookup_cons_ne a k' v _ hna, lookup_cons_ne a k' b ps hna]
      exact ih
    · have h1 : ¬ (((a, b).1 == k) = true) := by simp [hpk]
      rw [if_neg h1]
      by_cases hp' : a = k'
      · subst hp'
        rw [lookup_cons_self, lookup_cons_self]
      · rw [lookup_cons_ne a k' b _ hp', lookup_cons_ne a k' b ps hp']
        exact ih

theorem lookup_setKey_ne {α : Type} (m : List (String × α)) (k k' : String) (v : α)
    (hk : ¬ k' = k) : lookup (setKey m k v) k' = lookup m k' := by
  unfold setKey
  by_cases hf : (List.find? (fun p => p.1 == k) m).isSome
  · rw [if_pos hf]
    exact lookup_map_update_ne m k k' v hk
  · rw [if_neg hf, lookup_append]
    have h2 : lookup [(k, v)] k' = none := by
      have h3 : (k == k') = false := by
        simp only [beq_eq_false_iff_ne, ne_eq]
        exact fun e => hk e.symm
      simp [lookup, List.find?, h3]
    rw [h2]
    cases lookup m k' <;> rfl

theorem lookup_setKey_isSome {α : Type} (m : List (String × α)) (k k' : String) (v : α)
    (h : (lookup m k').isSome) : (lookup (setKey m k v) k').isSome := by
  by_cases hk : k' = k
  · subst hk
    rw [lookup_setKey_self]
    rfl
  · rw [lookup_setKey_ne m k k' v hk]
    exact h

theorem absorb_one_isSome (data : List (String × JVal)) (item : JVal) (k : String)
    (h : (lookup data k).isSome) : (lookup (absorb_one data item) k).isSome := by
  rcases item with _ | b | n | s | xs | f
  case obj =>
    simp only [absorb_one]
    rcases hid : getVal f "id" with _ | w
    · exact h
    · rcases w with _ | b2 | n2 | s2 | xs2 | f2
      case str => exact lookup_setKey_isSome data s2 k (JVal.obj f) h
      all_goals exact h
  all_goals exact h

theorem absorb_items_isSome (items : List JVal) (data : List (String × JVal)) (k : String)
    (h : (lookup data k).isSome) : (lookup (absorb_items data items) k).isSome := by
  induction items generalizing data with
  | nil => exact h
  | cons item rest ih => exact ih (absorb_one data item) (absorb_one_isSome data item k h)

theorem fallback_items_ok (env : VersionsEnv)
    (hs : ∀ v m, env.single v ≠ FetchOutcome.decodeError m) :
    ∀ (c : List String) (data : List (String × JVal)) (errors : List String),
      ∃ d2 e2, fallback_items env data errors c = Except.ok (d2, e2) := by
  intro c
  induction c with
  | nil =>
    intro data errors
    exact ⟨data, errors, rfl⟩
  | cons vid rest ih =>
    intro data errors
    cases ho : env.single vid with
    | ok item =>
      obtain ⟨d2, e2, h2⟩ := ih (if isObjB item then setKey data vid item else data) errors
      refine ⟨d2, e2, ?_⟩
      simp only [fallback_items, ho]
      exact h2
    | netError e =>
      obtain ⟨d2, e2, h2⟩ := ih data (errors ++ ["version/" ++ vid ++ ": " ++ e])
      refine ⟨d2, e2, ?_⟩
      simp only [fallback_items, ho]
      exact h2
    | decodeError e => exact absurd ho (hs vid e)

theorem fallback_items_isSome (env : VersionsEnv) :
    ∀ (c : List String) (data : List (String × JVal)) (errors : List String) d2 e2,
      fallback_items env data errors c = Except.ok (d2, e2) →
      ∀ k, (lookup data k).isSome → (lookup d2 k).isSome := by
  intro c
  induction c with
  | nil =>
    intro data errors d2 e2 hf k h
    injection hf with h2
    injection h2 with h3 h4
    rw [← h3]
    exact h
  | cons vid rest ih =>
    intro data errors d2 e2 hf k h
    cases ho : env.single vid with
    | ok item =>
      simp only [fallback_items, ho] at hf
      apply ih _ _ _ _ hf k
      by_cases hio : isObjB item = true
      · rw [if_pos hio]
        exact lookup_setKey_isSome data vid k item h
      · rw [if_neg hio]
        exact h
    | netError e =>
      simp only [fallback_items, ho] at hf
      exact ih _ _ _ _ hf k h
    | decodeError e =>
      simp only [fallback_items, ho] at hf
      cases hf

theorem fallback_items_hits (env : VersionsEnv) :
    ∀ (c : List String) (data : List (String × JVal)) (errors : List String) d2 e2 vid item,
      vid ∈ c → env.single vid = FetchOutcome.ok item → isObjB item = true →
      fallback_items env data errors c = Except.ok (d2, e2) →
      (lookup d2 vid).isSome := by
  intro c
  induction c with
  | nil =>
    intro _ _ _ _ _ _ hm
    cases hm
  | cons w rest ih =>
    intro data errors d2 e2 vid item hm ho hio hf
    rcases List.mem_cons.mp hm with rfl | hm2
    · simp only [fallback_items, ho] at hf
      rw [if_pos hio] at hf
      refine fallback_items_isSome env rest _ _ _ _ hf vid ?_
      rw [lookup_setKey_self]
      rfl
    · cases ho2 : env.single w with
      | ok item2 =>
        simp only [fallback_items, ho2] at hf
        exact ih _ _ _ _ vid item hm2 ho hio hf
      | netError e =>
        simp only [fallback_items, ho2] at hf
        exact ih _ _ _ _ vid item hm2 ho hio hf
      | decodeError e =>
        simp only [fallback_items, ho2] at hf
        cases hf

theorem process_batches_ok (env : VersionsEnv) (sz : Nat)
    (hb : ∀ c m, env.batch c ≠ FetchOutcome.decodeError m)
    (hs : ∀ v m, env.single v ≠ FetchOutcome.decodeError m) :
    ∀ (bsl : List (List String)) (i : Nat) (data : List (String × JVal))
      (errors : List String),
      ∃ mp e2, process_batches env sz bsl i data errors = Except.ok (mp, e2) := by
  intro bsl
  induction bsl with
  | nil =>
    intro i data errors
    exact ⟨data, errors, rfl⟩
  | cons b rest ih =>
    intro i data errors
    cases hob : env.batch b with
    | ok items =>
      rcases items with _ | b2 | n2 | s2 | l | d2
      case arr =>
        obtain ⟨mp, e2, h2⟩ := ih (i + sz) (absorb_items data l) errors
        refine ⟨mp, e2, ?_⟩
        simp only [process_batches, hob]
        exact h2
      all_goals {
        obtain ⟨mp, e2, h2⟩ := ih (i + sz) data
          (errors ++ ["versions batch starting at " ++ toString i ++ ": unexpected response type"])
        refine ⟨mp, e2, ?_⟩
        simp only [process_batches, hob]
        exact h2 }
    | netError e =>
      obtain ⟨d2, er2, hf⟩ := fallback_items_ok env hs b data
        (errors ++ ["versions batch starting at " ++ toString i ++ ": " ++ e])
      obtain ⟨mp, e2, h2⟩ := ih (i + sz) d2 er2
      refine ⟨mp, e2, ?_⟩
      simp only [process_batches, hob, hf]
      exact h2
    | decodeError m => exact absurd hob (hb b m)

theorem process_batches_isSome (env : VersionsEnv) (sz : Nat) :
    ∀ (bsl : List (List String)) (i : Nat) (data : List (String × JVal))
      (errors : List String) mp e2,
      process_batches env sz bsl i data errors = Except.ok (mp, e2) →
      ∀ k, (lookup data k).isSome → (lookup mp k).isSome := by
  intro bsl
  induction bsl with
  | nil =>
    intro i data errors mp e2 hp k h
    injection hp with h2
    injection h2 with h3 h4
    rw [← h3]
    exact h
  | cons b rest ih =>
    intro i data errors mp e2 hp k h
    cases hob : env.batch b with
    | ok items =>
      rcases items with _ | b2 | n2 | s2 | l | d2
      case arr =>
        simp only [process_batches, hob] at hp
        exact ih _ _ _ _ _ hp k (absorb_items_isSome l data k h)
      all_goals {
        simp only [process_batches, hob] at hp
        exact ih _ _ _ _ _ hp k h }
    | netError e =>
      cases hfb : fallback_items env data
          (errors ++ ["versions batch starting at " ++ toString i ++ ": " ++ e]) b with
      | ok pr =>
        rcases pr with ⟨d2, er2⟩
        simp only [process_batches, hob, hfb] at hp
        exact ih _ _ _ _ _ hp k (fallback_items_isSome env b data _ d2 er2 hfb k h)
      | error msg =>
        simp only [process_batches, hob, hfb] at hp
        cases hp
    | decodeError m =>
      simp only [process_batches, hob] at hp
      cases hp

theorem process_batches_fallback (env : VersionsEnv) (sz : Nat) :
    ∀ (bsl : List (List String)) (i : Nat) (data : List (String × JVal))
      (errors : List String) mp e2,
      process_batches env sz bsl i data errors = Except.ok (mp, e2) →
      ∀ c ∈ bsl, (∃ e, env.batch c = FetchOutcome.netError e) →
      ∀ vid ∈ c, ∀ item, env.single vid = FetchOutcome.ok item → isObjB item = true →
      (lookup mp vid).isSome := by
  intro bsl
  induction bsl with
  | nil =>
    intro i data errors mp e2 _ c hc
    cases hc
  | cons b rest ih =>
    intro i data errors mp e2 hp c hc hne vid hvid item ho hio
    rcases List.mem_cons.mp hc with rfl | hc2
    · obtain ⟨e, hob⟩ := hne
      cases hfb : fallback_items env data
          (errors ++ ["versions batch starting at " ++ toString i ++ ": " ++ e]) c with
      | ok pr =>
        rcases pr with ⟨d2, er2⟩
        simp only [process_batches, hob, hfb] at hp
        have h1 : (lookup d2 vid).isSome :=
          fallback_items_hits env c data _ d2 er2 vid item hvid ho hio hfb
        exact process_batches_isSome env sz rest _ _ _ _ _ hp vid h1
      | error msg =>
        simp only [process_batches, hob, hfb] at hp
        cases hp
    · cases hob : env.batch b with
      | ok items =>
        rcases items with _ | b2 | n2 | s2 | l | d2
        case arr =>
          simp only [process_batches, hob] at hp
          exact ih _ _ _ _ _ hp c hc2 hne vid hvid item ho hio
        all_goals {
          simp only [process_batches, hob] at hp
          exact ih _ _ _ _ _ hp c hc2 hne vid hvid item ho hio }
      | netError e =>
        cases hfb : fallback_items env data
            (errors ++ ["versions batch starting at " ++ toString i ++ ": " ++ e]) b with
        | ok pr =>
          rcases pr with ⟨d2, er2⟩
          simp only [process_batches, hob, hfb] at hp
          exact ih _ _ _ _ _ hp c hc2 hne vid hvid item ho hio
        | error msg =>
          simp only [process_batches, hob, hfb] at hp
          cases hp
      | decodeError m =>
        simp only [process_batches, hob] at hp
        cases hp

/-- Counterexample to C9 as stated: the batched lookup is not exception-free
for its caller. A 200 response whose body fails JSON parsing makes
`json.loads` inside `fetch_json` raise `json.JSONDecodeError`, which the
`except (URLError, HTTPError, TimeoutError)` clauses do not catch, so
`collect_versions_by_ids` raises instead of returning a mapping. -/
theorem collect_versions_raises_on_decode_error :
    ¬ ∃ res, collect_versions_by_ids
      { batch := fun _ => FetchOutcome.decodeError "Expecting value",
        single := fun _ => FetchOutcome.decodeError "Expecting value" }
      ["a"] 80 = Except.ok res := by
  rintro ⟨res, h⟩
  have h2 : collect_versions_by_ids
      { batch := fun _ => FetchOutcome.decodeError "Expecting value",
        single := fun _ => FetchOutcome.decodeError "Expecting value" }
      ["a"] 80 = Except.error "Expecting value" := rfl
  rw [h2] at h
  cases h

/-- C9 (amended): as long as every fetch either returns parsed JSON or
fails with one of the caught network error types, the batched lookup never
raises: it returns a mapping plus error lines, and for every batch whose
batch request failed with a network error, every id of that batch whose
one-by-one fallback fetch returned a dict record ends up present in the
returned mapping; ids it could not resolve are simply absent. -/
theorem collect_versions_tolerates_network_failure (env : VersionsEnv)
    (ids : List String) (batch_size : Nat)
    (hb : ∀ c m, env.batch c ≠ FetchOutcome.decodeError m)
    (hs : ∀ v m, env.single v ≠ FetchOutcome.decodeError m) :
    ∃ mp errs, collect_versions_by_ids env ids batch_size = Except.ok (mp, errs) ∧
      ∀ c ∈ chunksOf (max 1 batch_size - 1)
          (List.insertionSort strLe ids.eraseDups),
        (∃ e, env.batch c = FetchOutcome.netError e) →
        ∀ vid ∈ c, ∀ item, env.single vid = FetchOutcome.ok item → isObjB item = true →
          (lookup mp vid).isSome := by
  obtain ⟨mp, e2, hp⟩ := process_batches_ok env (max 1 batch_size) hb hs
    (chunksOf (max 1 batch_size - 1) (List.insertionSort strLe ids.eraseDups)) 0 [] []
  refine ⟨mp, e2, hp, ?_⟩
  intro c hc hne vid hvid item ho hio
  exact process_batches_fallback env (max 1 batch_size) _ 0 [] [] mp e2 hp c hc hne
    vid hvid item ho hio

/-- Witness for the amended C9: the batch endpoint is down with an HTTP 503
(a caught network error), the single-version endpoint answers; the one id
is resolved through the fallback. -/
theorem collect_versions_tolerates_network_failure_witness :
    ∃ mp errs, collect_versions_by_ids envFallback ["a"] 80 = Except.ok (mp, errs) ∧
      ∀ c ∈ chunksOf (max 1 80 - 1) (List.insertionSort strLe ["a"].eraseDups),
        (∃ e, envFallback.batch c = FetchOutcome.netError e) →
        ∀ vid ∈ c, ∀ item, envFallback.single vid = FetchOutcome.ok item →
          isObjB item = true → (lookup mp vid).isSome :=
  collect_versions_tolerates_network_failure envFallback ["a"] 80
    (fun c m h => FetchOutcome.noConfusion h)
    (fun v m h => FetchOutcome.noConfusion h)
